import Mathlib

/-!
Verification of the realtime signal-chain engine (linux-guitar-dsp).

Shallow embedding of:
  * the JSON chain schema parser / validator (src/src/signal_chain_schema.cpp),
  * the partitioned FFT convolver (src/engine/src/fft_convolver.cpp),
  * the runtime DSP nodes and node builder (src/engine/src/signal_chain_nodes.cpp),
  * SignalChain::process (src/engine/src/signal_chain.cpp),
  * the control-server request handler (src/engine/src/chain_control_server.cpp),
  * the audio thread's pending-chain pick-up / swap / retirement protocol
    (src/engine/src/main_alsa.cpp).

Machine floats are modelled as exact reals; JSON numbers as integers or
rationals (nlohmann::json distinguishes integer and floating storage, which
the schema code queries via is_number_integer).
-/

/-! ### JSON value model (nlohmann::json subset used by the schema code) -/

inductive Json where
  | null : Json
  | bool (b : Bool) : Json
  | int (n : ℤ) : Json
  | num (q : ℚ) : Json
  | str (s : String) : Json
  | arr (xs : List Json) : Json
  | obj (kvs : List (String × Json)) : Json
deriving Repr

namespace Json

/-- Object member lookup (`j[key]` / `j.contains(key)` on objects). -/
def find : Json → String → Option Json
  | obj kvs, key => kvs.lookup key
  | _, _ => none

def contains (j : Json) (key : String) : Bool := (j.find key).isSome

def isObject : Json → Bool
  | obj _ => true
  | _ => false

def isArray : Json → Bool
  | arr _ => true
  | _ => false

def isString : Json → Bool
  | str _ => true
  | _ => false

def isBoolean : Json → Bool
  | bool _ => true
  | _ => false

/-- `is_number_integer` in nlohmann::json: integer-stored numbers only. -/
def isInt : Json → Bool
  | int _ => true
  | _ => false

/-- `is_number`: integer- or float-stored numbers. -/
def isNumber : Json → Bool
  | int _ => true
  | num _ => true
  | _ => false

def asString : Json → String
  | str s => s
  | _ => ""

def asInt : Json → ℤ
  | int n => n
  | _ => 0

def asBool : Json → Bool
  | bool b => b
  | _ => false

/-- `get<double>()` on a number (integers promote). -/
def asNum : Json → ℚ
  | int n => (n : ℚ)
  | num q => q
  | _ => 0

def items : Json → List Json
  | arr xs => xs
  | _ => []

end Json

/-! ### Chain schema data model (signal_chain_schema.h) -/

structure AssetRef where
  path : String
deriving Repr, DecidableEq

structure NodeSpec where
  id : String := ""
  type : String := ""
  category : String := ""
  enabled : Bool := true
  params : Json := Json.obj []
  asset : Option AssetRef := none
deriving Repr

structure ChainSpec where
  version : ℤ := 1
  sampleRate : ℕ := 48000
  chain : List NodeSpec := []
deriving Repr

/-! ### Parsing (signal_chain_schema.cpp)

The C++ returns `std::optional<ChainSpec>` plus an error-message out
parameter; we fuse the two into `Except String`. -/

/-- `getString(j, key, err)`: distinguishes absent (`none` without error)
from present-but-not-a-string (error). -/
def getString (j : Json) (key : String) : Except String (Option String) :=
  match j.find key with
  | none => .ok none
  | some v =>
      if v.isString then .ok (some v.asString)
      else .error ("Field '" ++ key ++ "' must be a string")

def isBuiltinType (type : String) : Bool :=
  type == "input" || type == "output"

/-- A required string field: absent or non-string is an error.  (In the C++
a present-but-wrong-type 'id'/'type' first sets the `getString` message and
the caller then overwrites it with the "missing required" one; only the
error presence matters to any claim.) -/
def reqStringField (jn : Json) (key missingMsg : String) : Except String String :=
  match getString jn key with
  | .error e => .error e
  | .ok none => .error missingMsg
  | .ok (some s) => .ok s

/-- Optional string field with a default (the `category` block). -/
def optStringField (jn : Json) (key dflt wrongMsg : String) : Except String String :=
  if jn.contains key then
    match jn.find key with
    | some (Json.str s) => .ok s
    | _ => .error wrongMsg
  else .ok dflt

/-- Optional boolean field with a default (the `enabled` block). -/
def optBoolField (jn : Json) (key : String) (dflt : Bool) (wrongMsg : String) :
    Except String Bool :=
  if jn.contains key then
    match jn.find key with
    | some (Json.bool b) => .ok b
    | _ => .error wrongMsg
  else .ok dflt

/-- The `params` block: if present it must be an object. -/
def optParamsField (jn : Json) : Except String Json :=
  if jn.contains "params" then
    match jn.find "params" with
    | some p => if p.isObject then .ok p else .error "Node field 'params' must be an object"
    | none => .ok (Json.obj [])
  else .ok (Json.obj [])

/-- The `asset` block: if present it must be an object with a string `path`. -/
def optAssetField (jn : Json) : Except String (Option AssetRef) :=
  if jn.contains "asset" then
    match jn.find "asset" with
    | some a =>
        if !a.isObject then .error "Node field 'asset' must be an object"
        else
          match a.find "path" with
          | some (Json.str p) => .ok (some ⟨p⟩)
          | _ => .error "Node asset requires string field 'path'"
    | none => .ok none
  else .ok none

/-- `parseNode` (signal_chain_schema.cpp:26): the early-return chain of the
C++ written as nested matches. -/
def parseNode (jn : Json) : Except String NodeSpec :=
  if !jn.isObject then .error "Each chain element must be an object"
  else
    match reqStringField jn "id" "Node missing required string field 'id'" with
    | .error e => .error e
    | .ok id =>
        match reqStringField jn "type" "Node missing required string field 'type'" with
        | .error e => .error e
        | .ok ty =>
            match optStringField jn "category" "" "Node field 'category' must be a string" with
            | .error e => .error e
            | .ok category =>
                match optBoolField jn "enabled" true "Node field 'enabled' must be a boolean" with
                | .error e => .error e
                | .ok enabled =>
                    match optParamsField jn with
                    | .error e => .error e
                    | .ok params =>
                        match optAssetField jn with
                        | .error e => .error e
                        | .ok asset =>
                            .ok { id := id, type := ty, category := category,
                                  enabled := enabled, params := params, asset := asset }

def parseNodeList : List Json → Except String (List NodeSpec)
  | [] => .ok []
  | jn :: rest =>
      match parseNode jn with
      | .error e => .error e
      | .ok n =>
          match parseNodeList rest with
          | .error e => .error e
          | .ok ns => .ok (n :: ns)

/-- `get<int>()` on an integer-stored JSON number: nlohmann stores int64 and
`static_cast<int>` wraps it to 32 bits. -/
def toInt32 (n : ℤ) : ℤ := (n + 2147483648) % 4294967296 - 2147483648

/-- The `sampleRate` block of `parseCanonicalV1`: optional, but when present
it must be an integer-stored number whose `get<int>()` (32-bit wrap) is
positive; the positive wrapped value is what `(uint32_t)sr` stores. -/
def canonicalSampleRate (j : Json) : Except String ℕ :=
  if j.contains "sampleRate" then
    match j.find "sampleRate" with
    | some (Json.int sr) =>
        if toInt32 sr ≤ 0 then .error "'sampleRate' must be > 0"
        else .ok (toInt32 sr).toNat
    | _ => .error "'sampleRate' must be integer"
  else .ok 48000

/-- `parseCanonicalV1` (signal_chain_schema.cpp:101).  `spec.version` is
assigned from `get<int>()`, so the version comparison sees the 32-bit
wrapped value. -/
def parseCanonicalV1 (j : Json) : Except String ChainSpec :=
  match j.find "version" with
  | some (Json.int v) =>
      if toInt32 v ≠ 1 then .error "Unsupported chain version"
      else
        match canonicalSampleRate j with
        | .error e => .error e
        | .ok sr =>
            match j.find "chain" with
            | some (Json.arr xs) =>
                match parseNodeList xs with
                | .error e => .error e
                | .ok ns => .ok { version := toInt32 v, sampleRate := sr, chain := ns }
            | _ => .error "Missing/invalid 'chain' (must be array)"
  | _ => .error "Missing/invalid 'version' (must be integer)"

/-- Legacy sampleRate: set only when `audio` is an object holding an
integer-stored `sampleRate` (signal_chain_schema.cpp:157). -/
def legacySampleRate (j : Json) : ℕ :=
  match j.find "audio" with
  | some a =>
      if a.isObject then
        match a.find "sampleRate" with
        | some (Json.int sr) => (sr % 4294967296).toNat
        | _ => 48000
      else 48000
  | none => 48000

/-- Legacy input-node params: `audio.inputTrimDb` copied through when present;
a non-number is an error (signal_chain_schema.cpp:169). -/
def legacyInputParams (j : Json) : Except String Json :=
  match j.find "audio" with
  | some a =>
      if a.isObject then
        match a.find "inputTrimDb" with
        | some v =>
            if v.isNumber then .ok (Json.obj [("inputTrimDb", v)])
            else .error "legacy audio.inputTrimDb must be number"
        | none => .ok (Json.obj [])
      else .ok (Json.obj [])
  | none => .ok (Json.obj [])

/-- Legacy asset path for `chain.<key>`: present-but-not-string is an error
(signal_chain_schema.cpp:193). -/
def legacyAssetPath (j : Json) (key errMsg : String) : Except String (Option AssetRef) :=
  match j.find "chain" with
  | some c =>
      if c.isObject then
        match c.find key with
        | some (Json.str p) => .ok (some ⟨p⟩)
        | some _ => .error errMsg
        | none => .ok none
      else .ok none
  | none => .ok none

/-- The four-node canonical chain the legacy converter produces. -/
def legacySpec (j : Json) (inputParams : Json) (ampAsset cabAsset : Option AssetRef) :
    ChainSpec :=
  { version := 1, sampleRate := legacySampleRate j,
    chain :=
      [ { id := "input", type := "input", category := "utility", enabled := true,
          params := inputParams },
        { id := "amp1", type := "nam_model", category := "amp", enabled := true,
          asset := ampAsset },
        { id := "cab1", type := "ir_convolver", category := "cab", enabled := true,
          asset := cabAsset },
        { id := "output", type := "output", category := "utility", enabled := true } ] }

/-- `parseLegacy` (signal_chain_schema.cpp:150): converts the legacy
single-amp/single-cab shape into a four-node canonical chain. -/
def parseLegacy (j : Json) : Except String ChainSpec :=
  match legacyInputParams j with
  | .error e => .error e
  | .ok inputParams =>
      match legacyAssetPath j "namModelPath" "legacy chain.namModelPath must be string" with
      | .error e => .error e
      | .ok ampAsset =>
          match legacyAssetPath j "irPath" "legacy chain.irPath must be string" with
          | .error e => .error e
          | .ok cabAsset => .ok (legacySpec j inputParams ampAsset cabAsset)

/-- `parseChainJson` (signal_chain_schema.cpp:226). -/
def parseChainJson (j : Json) : Except String ChainSpec :=
  if !j.isObject then
    .error "Top-level JSON must be an object"
  else if j.contains "version" && j.contains "chain" && ((j.find "chain").getD Json.null).isArray then
    parseCanonicalV1 j
  else
    parseLegacy j

/-! ### Validation (signal_chain_schema.cpp:250) -/

def hasType (nodes : List NodeSpec) (type : String) : Bool :=
  nodes.any (fun n => n.type == type)

/-- The id/type loop of `validateChainSpec`: walks the node list keeping the
set of ids seen so far (the `unordered_set`). -/
def checkIds : List NodeSpec → List String → Except String Unit
  | [], _ => .ok ()
  | n :: rest, seen =>
      if n.id = "" then .error "Node id must be non-empty"
      else if seen.contains n.id then .error ("Duplicate node id: " ++ n.id)
      else if n.type = "" then .error "Node type must be non-empty"
      else checkIds rest (n.id :: seen)

/-- Index of the first node of the given type, -1 encoded as `none`. -/
def firstIdxOfType (nodes : List NodeSpec) (type : String) : Option ℕ :=
  nodes.findIdx? (fun n => n.type == type)

instance : Inhabited NodeSpec := ⟨{}⟩

/-- `validateChainSpec` (signal_chain_schema.cpp:250). Returns its input
unchanged on success, exactly as the C++ returns `spec`.  The final
`ampIdx/cabIdx` scan (which cannot fail to find both types after the
`hasType` checks, matching the C++ `ampIdx < 0 || cabIdx < 0` guard)
is modelled with `firstIdxOfType`. -/
def validateChainSpec (spec : ChainSpec) : Except String ChainSpec :=
  if spec.version ≠ 1 then .error "Only chain version 1 is supported"
  else if spec.chain.length < 2 then .error "Chain must contain at least input and output"
  else
    match checkIds spec.chain [] with
    | .error e => .error e
    | .ok () =>
        if (spec.chain.headI).type ≠ "input" then
          .error "First node must be type 'input'"
        else if (spec.chain.getLastI).type ≠ "output" then
          .error "Last node must be type 'output'"
        else if !hasType spec.chain "nam_model" then
          .error "Chain must contain a 'nam_model' node"
        else if !hasType spec.chain "ir_convolver" then
          .error "Chain must contain an 'ir_convolver' node"
        else
          match firstIdxOfType spec.chain "nam_model",
                firstIdxOfType spec.chain "ir_convolver" with
          | some ampIdx, some cabIdx =>
              if ampIdx ≥ cabIdx then
                .error "Invalid ordering: 'nam_model' must appear before 'ir_convolver'"
              else .ok spec
          | _, _ => .error "Invalid ordering: 'nam_model' must appear before 'ir_convolver'"

/-- The full parse-and-validate pipeline used by the control server. -/
def parseAndValidate (j : Json) : Except String ChainSpec :=
  match parseChainJson j with
  | .error e => .error e
  | .ok spec => validateChainSpec spec

/-! `List.headI` / `List.getLastI` model `front()`/`back()`, which are only
reached when `size ≥ 2`. -/

/-! ### C2: invariants guaranteed by a successful validateChainSpec -/
lemma checkIds_ok {l : List NodeSpec} {seen : List String}
    (h : checkIds l seen = .ok ()) :
    (∀ n ∈ l, n.id ≠ "") ∧ (∀ n ∈ l, n.id ∉ seen) ∧ (l.map NodeSpec.id).Nodup := by
  induction l generalizing seen with
  | nil => simp
  | cons n rest ih =>
      unfold checkIds at h
      split_ifs at h with h1 h2 h3
      obtain ⟨hne, hnotin, hnd⟩ := ih h
      refine ⟨?_, ?_, ?_⟩
      · intro m hm
        rcases List.mem_cons.mp hm with rfl | hm
        · simpa using h1
        · exact hne m hm
      · intro m hm
        rcases List.mem_cons.mp hm with rfl | hm
        · simpa using h2
        · exact fun hs => hnotin m hm (List.mem_cons_of_mem _ hs)
      · refine List.nodup_cons.mpr ⟨?_, hnd⟩
        intro hmem
        obtain ⟨m, hm, hid⟩ := List.mem_map.mp hmem
        exact hnotin m hm (by simp [hid])

lemma validateChainSpec_ok {spec out : ChainSpec}
    (h : validateChainSpec spec = .ok out) :
    out = spec ∧ spec.version = 1 ∧ 2 ≤ spec.chain.length ∧
    checkIds spec.chain [] = .ok () ∧
    (spec.chain.headI).type = "input" ∧ (spec.chain.getLastI).type = "output" ∧
    hasType spec.chain "nam_model" = true ∧ hasType spec.chain "ir_convolver" = true ∧
    ∃ a c, firstIdxOfType spec.chain "nam_model" = some a ∧
           firstIdxOfType spec.chain "ir_convolver" = some c ∧ a < c := by
  unfold validateChainSpec at h
  by_cases hv : spec.version ≠ 1
  · rw [if_pos hv] at h; cases h
  rw [if_neg hv] at h
  by_cases hl : spec.chain.length < 2
  · rw [if_pos hl] at h; cases h
  rw [if_neg hl] at h
  rcases hc : checkIds spec.chain [] with e | u
  · rw [hc] at h; cases h
  rw [hc] at h
  cases u
  dsimp only at h
  by_cases hh : (spec.chain.headI).type ≠ "input"
  · rw [if_pos hh] at h; cases h
  rw [if_neg hh] at h
  by_cases ht : (spec.chain.getLastI).type ≠ "output"
  · rw [if_pos ht] at h; cases h
  rw [if_neg ht] at h
  by_cases hnm : !hasType spec.chain "nam_model"
  · rw [if_pos hnm] at h; cases h
  rw [if_neg hnm] at h
  by_cases hir : !hasType spec.chain "ir_convolver"
  · rw [if_pos hir] at h; cases h
  rw [if_neg hir] at h
  rcases ha : firstIdxOfType spec.chain "nam_model" with _ | a <;> rw [ha] at h
  · cases h
  rcases hcab : firstIdxOfType spec.chain "ir_convolver" with _ | c <;> rw [hcab] at h
  · cases h
  dsimp only at h
  by_cases hord : a ≥ c
  · rw [if_pos hord] at h; cases h
  rw [if_neg hord] at h
  cases h
  refine ⟨rfl, by omega, by omega, rfl, by simpa using hh, by simpa using ht,
          by simpa using hnm, by simpa using hir, a, c, rfl, rfl, by omega⟩

theorem validated_chain_invariants {spec out : ChainSpec}
    (h : validateChainSpec spec = .ok out) :
    out.version = 1 ∧
    2 ≤ out.chain.length ∧
    out.chain.head?.map NodeSpec.type = some "input" ∧
    out.chain.getLast?.map NodeSpec.type = some "output" ∧
    (∃ n ∈ out.chain, n.type = "nam_model") ∧
    (∃ n ∈ out.chain, n.type = "ir_convolver") ∧
    (∃ a c, firstIdxOfType out.chain "nam_model" = some a ∧
            firstIdxOfType out.chain "ir_convolver" = some c ∧ a < c) ∧
    (∀ n ∈ out.chain, n.id ≠ "") ∧
    (out.chain.map NodeSpec.id).Nodup := by
  obtain ⟨rfl, hv, hl, hids, hh, ht, hnm, hir, hord⟩ := validateChainSpec_ok h
  obtain ⟨hne, _, hnd⟩ := checkIds_ok hids
  have hnil : out.chain ≠ [] := by
    intro he; rw [he] at hl; simp at hl
  refine ⟨hv, hl, ?_, ?_, ?_, ?_, hord, hne, hnd⟩
  · rcases he : out.chain with _ | ⟨n, rest⟩
    · exact absurd he hnil
    · rw [he] at hh; simpa using hh
  · rw [List.getLastI_eq_getLast?] at ht
    rcases he : out.chain.getLast? with _ | n
    · exact absurd (List.getLast?_eq_none_iff.mp he) hnil
    · rw [he] at ht; simpa using ht
  · obtain ⟨n, hn, hp⟩ := List.any_eq_true.mp hnm
    exact ⟨n, hn, by simpa using hp⟩
  · obtain ⟨n, hn, hp⟩ := List.any_eq_true.mp hir
    exact ⟨n, hn, by simpa using hp⟩

/-- A minimal canonical chain used to instantiate claim theorems. -/
def sampleChainSpec : ChainSpec :=
  { version := 1, sampleRate := 48000,
    chain := [ { id := "input", type := "input" },
               { id := "amp1", type := "nam_model" },
               { id := "cab1", type := "ir_convolver" },
               { id := "output", type := "output" } ] }

theorem validated_chain_invariants_witness :
    validateChainSpec sampleChainSpec = .ok sampleChainSpec ∧
    (sampleChainSpec.version = 1 ∧
     2 ≤ sampleChainSpec.chain.length ∧
     sampleChainSpec.chain.head?.map NodeSpec.type = some "input" ∧
     sampleChainSpec.chain.getLast?.map NodeSpec.type = some "output" ∧
     (∃ n ∈ sampleChainSpec.chain, n.type = "nam_model") ∧
     (∃ n ∈ sampleChainSpec.chain, n.type = "ir_convolver") ∧
     (∃ a c, firstIdxOfType sampleChainSpec.chain "nam_model" = some a ∧
             firstIdxOfType sampleChainSpec.chain "ir_convolver" = some c ∧ a < c) ∧
     (∀ n ∈ sampleChainSpec.chain, n.id ≠ "") ∧
     (sampleChainSpec.chain.map NodeSpec.id).Nodup) :=
  ⟨by rfl, @validated_chain_invariants sampleChainSpec sampleChainSpec (by rfl)⟩

/-! ### C8: characterisation of parse/validate rejection -/

/-- Claim-side: well-formedness of one chain-array element (required fields
present with right type, optional fields right type when present). -/
def nodeWellFormed (jn : Json) : Bool :=
  jn.isObject &&
  (match jn.find "id" with | some (Json.str _) => true | _ => false) &&
  (match jn.find "type" with | some (Json.str _) => true | _ => false) &&
  (match jn.find "category" with | some v => v.isString | none => true) &&
  (match jn.find "enabled" with | some v => v.isBoolean | none => true) &&
  (match jn.find "params" with | some v => v.isObject | none => true) &&
  (match jn.find "asset" with
   | some a => a.isObject &&
       (match a.find "path" with | some (Json.str _) => true | _ => false)
   | none => true)

/-- The NodeSpec a well-formed element parses to. -/
def nodeFromJson (jn : Json) : NodeSpec :=
  { id := (match jn.find "id" with | some (Json.str s) => s | _ => ""),
    type := (match jn.find "type" with | some (Json.str s) => s | _ => ""),
    category := (match jn.find "category" with | some (Json.str s) => s | _ => ""),
    enabled := (match jn.find "enabled" with | some (Json.bool b) => b | _ => true),
    params := (match jn.find "params" with
               | some p => if p.isObject then p else Json.obj []
               | none => Json.obj []),
    asset := (match jn.find "asset" with
              | some a => (match a.find "path" with
                           | some (Json.str s) => some ⟨s⟩
                           | _ => none)
              | none => none) }

lemma reqStringField_none {jn : Json} {key m : String} (h : jn.find key = none) :
    reqStringField jn key m = .error m := by
  unfold reqStringField getString; rw [h]

lemma reqStringField_str {jn : Json} {key m s : String} (h : jn.find key = some (Json.str s)) :
    reqStringField jn key m = .ok s := by
  unfold reqStringField getString; rw [h]; rfl

lemma reqStringField_notStr {jn : Json} {key m : String} {v : Json}
    (h : jn.find key = some v) (hv : v.isString = false) :
    ∃ e, reqStringField jn key m = .error e := by
  unfold reqStringField getString; rw [h]
  simp only [hv]
  exact ⟨_, rfl⟩

lemma optStringField_none {jn : Json} {key dflt m : String} (h : jn.find key = none) :
    optStringField jn key dflt m = .ok dflt := by
  unfold optStringField
  simp [Json.contains, h]

lemma optStringField_str {jn : Json} {key dflt m s : String}
    (h : jn.find key = some (Json.str s)) :
    optStringField jn key dflt m = .ok s := by
  unfold optStringField
  simp [Json.contains, h]

lemma optStringField_notStr {jn : Json} {key dflt m : String} {v : Json}
    (h : jn.find key = some v) (hv : v.isString = false) :
    optStringField jn key dflt m = .error m := by
  unfold optStringField
  simp only [Json.contains, h, Option.isSome_some, if_true]
  cases v <;> first | rfl | simp [Json.isString] at hv

lemma optBoolField_none {jn : Json} {key m : String} {d : Bool} (h : jn.find key = none) :
    optBoolField jn key d m = .ok d := by
  unfold optBoolField
  simp [Json.contains, h]

lemma optBoolField_bool {jn : Json} {key m : String} {d b : Bool}
    (h : jn.find key = some (Json.bool b)) :
    optBoolField jn key d m = .ok b := by
  unfold optBoolField
  simp [Json.contains, h]

lemma optBoolField_notBool {jn : Json} {key m : String} {d : Bool} {v : Json}
    (h : jn.find key = some v) (hv : v.isBoolean = false) :
    optBoolField jn key d m = .error m := by
  unfold optBoolField
  simp only [Json.contains, h, Option.isSome_some, if_true]
  cases v <;> first | rfl | simp [Json.isBoolean] at hv

lemma optParamsField_none {jn : Json} (h : jn.find "params" = none) :
    optParamsField jn = .ok (Json.obj []) := by
  unfold optParamsField
  simp [Json.contains, h]

lemma optParamsField_obj {jn : Json} {p : Json} (h : jn.find "params" = some p)
    (hp : p.isObject = true) :
    optParamsField jn = .ok p := by
  unfold optParamsField
  simp [Json.contains, h, hp]

lemma optParamsField_notObj {jn : Json} {p : Json} (h : jn.find "params" = some p)
    (hp : p.isObject = false) :
    ∃ e, optParamsField jn = .error e := by
  unfold optParamsField
  simp [Json.contains, h, hp]

lemma optAssetField_none {jn : Json} (h : jn.find "asset" = none) :
    optAssetField jn = .ok none := by
  unfold optAssetField
  simp [Json.contains, h]

lemma optAssetField_path {jn : Json} {a : Json} {s : String}
    (h : jn.find "asset" = some a) (ha : a.isObject = true)
    (hp : a.find "path" = some (Json.str s)) :
    optAssetField jn = .ok (some ⟨s⟩) := by
  unfold optAssetField
  simp [Json.contains, h, ha, hp]

lemma optAssetField_bad {jn : Json} {a : Json}
    (h : jn.find "asset" = some a)
    (hbad : (a.isObject &&
      (match a.find "path" with | some (Json.str _) => true | _ => false)) = false) :
    ∃ e, optAssetField jn = .error e := by
  unfold optAssetField
  simp only [Json.contains, h, Option.isSome_some, if_true]
  rcases hobj : a.isObject with _ | _
  · simp [hobj]
  · simp only [hobj, Bool.true_and] at hbad
    simp only [hobj, Bool.not_true, Bool.false_eq_true, if_false]
    rcases hp : a.find "path" with _ | v
    · exact ⟨_, rfl⟩
    · cases v <;> first | exact ⟨_, rfl⟩ | (rw [hp] at hbad; simp at hbad)

lemma reqStringField_wf {jn : Json} {key m : String}
    (h : (match jn.find key with | some (Json.str _) => true | _ => false) = true) :
    reqStringField jn key m =
      .ok (match jn.find key with | some (Json.str s) => s | _ => "") := by
  rcases hf : jn.find key with _ | v <;> rw [hf] at h
  · simp at h
  cases v <;> simp at h ⊢
  exact reqStringField_str hf

lemma reqStringField_err {jn : Json} {key m : String}
    (h : (match jn.find key with | some (Json.str _) => true | _ => false) = false) :
    ∃ e, reqStringField jn key m = .error e := by
  rcases hf : jn.find key with _ | v <;> rw [hf] at h
  · exact ⟨_, reqStringField_none hf⟩
  cases v <;> simp at h ⊢
  all_goals exact reqStringField_notStr hf (by rfl)

lemma optStringField_wf {jn : Json} {key dflt m : String}
    (h : (match jn.find key with | some v => v.isString | none => true) = true) :
    optStringField jn key dflt m =
      .ok (match jn.find key with | some (Json.str s) => s | _ => dflt) := by
  rcases hf : jn.find key with _ | v <;> rw [hf] at h
  · rw [optStringField_none hf]
  cases v <;> simp [Json.isString] at h ⊢
  exact optStringField_str hf

lemma optStringField_err {jn : Json} {key dflt m : String}
    (h : (match jn.find key with | some v => v.isString | none => true) = false) :
    ∃ e, optStringField jn key dflt m = .error e := by
  rcases hf : jn.find key with _ | v <;> rw [hf] at h
  · simp at h
  exact ⟨_, optStringField_notStr hf (by cases v <;> simp_all [Json.isString])⟩

lemma optBoolField_wf {jn : Json} {key m : String} {d : Bool}
    (h : (match jn.find key with | some v => v.isBoolean | none => true) = true) :
    optBoolField jn key d m =
      .ok (match jn.find key with | some (Json.bool b) => b | _ => d) := by
  rcases hf : jn.find key with _ | v <;> rw [hf] at h
  · rw [optBoolField_none hf]
  cases v <;> simp [Json.isBoolean] at h ⊢
  exact optBoolField_bool hf

lemma optBoolField_err {jn : Json} {key m : String} {d : Bool}
    (h : (match jn.find key with | some v => v.isBoolean | none => true) = false) :
    ∃ e, optBoolField jn key d m = .error e := by
  rcases hf : jn.find key with _ | v <;> rw [hf] at h
  · simp at h
  exact ⟨_, optBoolField_notBool hf (by cases v <;> simp_all [Json.isBoolean])⟩

lemma optParamsField_wf {jn : Json}
    (h : (match jn.find "params" with | some v => v.isObject | none => true) = true) :
    optParamsField jn =
      .ok (match jn.find "params" with
           | some p => if p.isObject then p else Json.obj []
           | none => Json.obj []) := by
  rcases hf : jn.find "params" with _ | v <;> rw [hf] at h
  · rw [optParamsField_none hf]
  dsimp only at h ⊢
  rw [optParamsField_obj hf h, if_pos h]

lemma optParamsField_err {jn : Json}
    (h : (match jn.find "params" with | some v => v.isObject | none => true) = false) :
    ∃ e, optParamsField jn = .error e := by
  rcases hf : jn.find "params" with _ | v <;> rw [hf] at h
  · simp at h
  exact optParamsField_notObj hf h

lemma optAssetField_wf {jn : Json}
    (h : (match jn.find "asset" with
          | some a => a.isObject &&
              (match a.find "path" with | some (Json.str _) => true | _ => false)
          | none => true) = true) :
    optAssetField jn =
      .ok (match jn.find "asset" with
           | some a => (match a.find "path" with
                        | some (Json.str s) => some ⟨s⟩
                        | _ => none)
           | none => none) := by
  rcases hf : jn.find "asset" with _ | a <;> rw [hf] at h
  · rw [optAssetField_none hf]
  rw [Bool.and_eq_true] at h
  obtain ⟨ha, hp⟩ := h
  rcases hfp : a.find "path" with _ | v <;> rw [hfp] at hp
  · simp at hp
  cases v <;> simp at hp
  dsimp only
  rw [hfp]
  exact optAssetField_path hf ha hfp

lemma optAssetField_err {jn : Json}
    (h : (match jn.find "asset" with
          | some a => a.isObject &&
              (match a.find "path" with | some (Json.str _) => true | _ => false)
          | none => true) = false) :
    ∃ e, optAssetField jn = .error e := by
  rcases hf : jn.find "asset" with _ | a <;> rw [hf] at h
  · simp at h
  exact optAssetField_bad hf h

lemma parseNode_of_wf {jn : Json} (h : nodeWellFormed jn = true) :
    parseNode jn = .ok (nodeFromJson jn) := by
  unfold nodeWellFormed at h
  simp only [Bool.and_eq_true] at h
  obtain ⟨⟨⟨⟨⟨⟨hobj, hid⟩, hty⟩, hcat⟩, hen⟩, hpar⟩, has⟩ := h
  unfold parseNode
  rw [hobj]
  simp only [Bool.not_true, Bool.false_eq_true, if_false]
  rw [reqStringField_wf hid, reqStringField_wf hty, optStringField_wf hcat,
      optBoolField_wf hen, optParamsField_wf hpar, optAssetField_wf has]
  rfl

lemma parseNode_err {jn : Json} (h : nodeWellFormed jn = false) :
    ∃ e, parseNode jn = .error e := by
  unfold nodeWellFormed at h
  unfold parseNode
  rcases hobj : jn.isObject with _ | _
  · exact ⟨_, rfl⟩
  simp only [Bool.not_true, Bool.false_eq_true, if_false]
  rw [hobj] at h
  simp only [Bool.true_and] at h
  rcases hid : (match jn.find "id" with | some (Json.str _) => true | _ => false) with _ | _
  · obtain ⟨e, he⟩ := reqStringField_err (m := "Node missing required string field 'id'") hid
    rw [he]
    exact ⟨_, rfl⟩
  rw [reqStringField_wf hid]
  rw [hid] at h
  simp only [Bool.true_and] at h
  rcases hty : (match jn.find "type" with | some (Json.str _) => true | _ => false) with _ | _
  · obtain ⟨e, he⟩ := reqStringField_err (m := "Node missing required string field 'type'") hty
    rw [he]
    exact ⟨_, rfl⟩
  rw [reqStringField_wf hty]
  rw [hty] at h
  simp only [Bool.true_and] at h
  rcases hcat : (match jn.find "category" with | some v => v.isString | none => true) with _ | _
  · obtain ⟨e, he⟩ := @optStringField_err _ _ "" "Node field 'category' must be a string" hcat
    rw [he]
    exact ⟨_, rfl⟩
  rw [optStringField_wf hcat]
  rw [hcat] at h
  simp only [Bool.true_and] at h
  rcases hen : (match jn.find "enabled" with | some v => v.isBoolean | none => true) with _ | _
  · obtain ⟨e, he⟩ := optBoolField_err (d := true) (m := "Node field 'enabled' must be a boolean") hen
    rw [he]
    exact ⟨_, rfl⟩
  rw [optBoolField_wf hen]
  rw [hen] at h
  simp only [Bool.true_and] at h
  rcases hpar : (match jn.find "params" with | some v => v.isObject | none => true) with _ | _
  · obtain ⟨e, he⟩ := optParamsField_err hpar
    rw [he]
    exact ⟨_, rfl⟩
  rw [optParamsField_wf hpar]
  rw [hpar] at h
  simp only [Bool.true_and] at h
  obtain ⟨e, he⟩ := optAssetField_err h
  rw [he]
  exact ⟨_, rfl⟩

lemma parseNodeList_of_wf {xs : List Json} (h : xs.all nodeWellFormed = true) :
    parseNodeList xs = .ok (xs.map nodeFromJson) := by
  induction xs with
  | nil => rfl
  | cons jn rest ih =>
      rw [List.all_cons, Bool.and_eq_true] at h
      unfold parseNodeList
      rw [parseNode_of_wf h.1, ih h.2]
      rfl

lemma parseNodeList_err {xs : List Json} (h : xs.all nodeWellFormed = false) :
    ∃ e, parseNodeList xs = .error e := by
  induction xs with
  | nil => simp at h
  | cons jn rest ih =>
      rw [List.all_cons] at h
      unfold parseNodeList
      rcases hwf : nodeWellFormed jn with _ | _
      · obtain ⟨e, he⟩ := parseNode_err hwf
        rw [he]
        exact ⟨_, rfl⟩
      · rw [parseNode_of_wf hwf]
        rw [hwf, Bool.true_and] at h
        obtain ⟨e, he⟩ := ih h
        rw [he]
        exact ⟨_, rfl⟩

/-- Claim-side condition on the canonical `sampleRate` field (positivity of
the 32-bit wrapped value, as the code's `get<int>()` sees it). -/
def srOk (j : Json) : Bool :=
  match j.find "sampleRate" with
  | some (Json.int sr) => decide (0 < toInt32 sr)
  | some _ => false
  | none => true

lemma canonicalSampleRate_of_ok {j : Json} (h : srOk j = true) :
    canonicalSampleRate j =
      .ok (match j.find "sampleRate" with
           | some (Json.int sr) => (toInt32 sr).toNat
           | _ => 48000) := by
  unfold srOk at h
  unfold canonicalSampleRate
  rcases hf : j.find "sampleRate" with _ | v <;> rw [hf] at h
  · simp [Json.contains, hf]
  cases v <;> simp at h
  rename_i sr
  simp only [Json.contains, hf, Option.isSome_some, if_true]
  rw [if_neg (by omega)]

lemma canonicalSampleRate_err {j : Json} (h : srOk j = false) :
    ∃ e, canonicalSampleRate j = .error e := by
  unfold srOk at h
  unfold canonicalSampleRate
  rcases hf : j.find "sampleRate" with _ | v <;> rw [hf] at h
  · simp at h
  simp only [Json.contains, hf, Option.isSome_some, if_true]
  cases v <;> try exact ⟨_, rfl⟩
  rename_i sr
  simp only [decide_eq_false_iff_not, not_lt] at h
  dsimp only
  rw [if_pos h]
  exact ⟨_, rfl⟩

lemma checkIds_types {l : List NodeSpec} {seen : List String}
    (h : checkIds l seen = .ok ()) : ∀ n ∈ l, n.type ≠ "" := by
  induction l generalizing seen with
  | nil => simp
  | cons n rest ih =>
      unfold checkIds at h
      split_ifs at h with h1 h2 h3
      intro m hm
      rcases List.mem_cons.mp hm with rfl | hm
      · exact h3
      · exact ih h m hm

lemma checkIds_complete {l : List NodeSpec} {seen : List String}
    (hids : ∀ n ∈ l, n.id ≠ "" ∧ n.type ≠ "")
    (hnd : (l.map NodeSpec.id).Nodup)
    (hdisj : ∀ n ∈ l, n.id ∉ seen) :
    checkIds l seen = .ok () := by
  induction l generalizing seen with
  | nil => rfl
  | cons n rest ih =>
      unfold checkIds
      rw [if_neg (by simpa using (hids n (by simp)).1)]
      rw [if_neg (by simpa using hdisj n (by simp))]
      rw [if_neg (by simpa using (hids n (by simp)).2)]
      rw [List.map_cons, List.nodup_cons] at hnd
      refine ih (fun m hm => hids m (List.mem_cons_of_mem _ hm)) hnd.2 ?_
      intro m hm hmem
      rcases List.mem_cons.mp hmem with he | hs
      · exact hnd.1 (he ▸ List.mem_map_of_mem NodeSpec.id hm)
      · exact hdisj m (List.mem_cons_of_mem _ hm) hs

/-- Claim-side validity of an ordered node list (the §3 ChainSpec
invariants, plus the non-empty `type` the validator also enforces). -/
def validNodes (l : List NodeSpec) : Prop :=
  2 ≤ l.length ∧
  (∀ n ∈ l, n.id ≠ "" ∧ n.type ≠ "") ∧
  (l.map NodeSpec.id).Nodup ∧
  l.head?.map NodeSpec.type = some "input" ∧
  l.getLast?.map NodeSpec.type = some "output" ∧
  (∃ a c, firstIdxOfType l "nam_model" = some a ∧
          firstIdxOfType l "ir_convolver" = some c ∧ a < c)

/-- Claim-side validity of a ChainSpec. -/
def validSpec (spec : ChainSpec) : Prop :=
  spec.version = 1 ∧ validNodes spec.chain

lemma hasType_eq_isSome (l : List NodeSpec) (t : String) :
    hasType l t = (firstIdxOfType l t).isSome := by
  rw [hasType, firstIdxOfType, List.findIdx?_isSome]

lemma validateChainSpec_isOk_iff (spec : ChainSpec) :
    (validateChainSpec spec).isOk = true ↔ validSpec spec := by
  constructor
  · intro h
    rcases hv : validateChainSpec spec with e | out
    · rw [hv] at h; simp [Except.isOk, Except.toBool] at h
    obtain ⟨hout, h1, h2, hids, hh, ht, _, _, a, c, ha, hc, hac⟩ := validateChainSpec_ok hv
    clear hout
    obtain ⟨hne, _, hnd⟩ := checkIds_ok hids
    have htys := checkIds_types hids
    have hnil : spec.chain ≠ [] := by
      intro he; rw [he] at h2; simp at h2
    refine ⟨h1, h2, fun n hn => ⟨hne n hn, htys n hn⟩, hnd, ?_, ?_, a, c, ha, hc, hac⟩
    · rcases he : spec.chain with _ | ⟨n, rest⟩
      · exact absurd he hnil
      · rw [he] at hh; simpa using hh
    · rw [List.getLastI_eq_getLast?] at ht
      rcases he : spec.chain.getLast? with _ | n
      · exact absurd (List.getLast?_eq_none_iff.mp he) hnil
      · rw [he] at ht; simpa using ht
  · rintro ⟨h1, h2, hnt, hnd, hh, ht, a, c, ha, hc, hac⟩
    unfold validateChainSpec
    rw [if_neg (by omega), if_neg (by omega)]
    rw [checkIds_complete hnt hnd (by simp)]
    have hhI : (spec.chain.headI).type = "input" := by
      rcases he : spec.chain with _ | ⟨n, rest⟩
      · rw [he] at hh; simp at hh
      · rw [he] at hh; simp at hh; simp [hh]
    have htI : (spec.chain.getLastI).type = "output" := by
      rw [List.getLastI_eq_getLast?]
      rcases he : spec.chain.getLast? with _ | n
      · rw [he] at ht; simp at ht
      · rw [he] at ht; simpa using ht
    rw [if_neg (by simp [hhI]), if_neg (by simp [htI])]
    rw [if_neg (by simp [hasType_eq_isSome, ha]), if_neg (by simp [hasType_eq_isSome, hc])]
    rw [ha, hc]
    dsimp only
    rw [if_neg (by omega)]
    rfl

/-- Claim-side acceptance condition for the legacy shape: the only rejection
causes are wrongly-typed `audio.inputTrimDb`, `chain.namModelPath`,
`chain.irPath`. -/
def legacyOkCond (j : Json) : Prop :=
  (∀ a, j.find "audio" = some a → a.isObject = true →
     ∀ v, a.find "inputTrimDb" = some v → v.isNumber = true) ∧
  (∀ c, j.find "chain" = some c → c.isObject = true →
     ∀ v, c.find "namModelPath" = some v → v.isString = true) ∧
  (∀ c, j.find "chain" = some c → c.isObject = true →
     ∀ v, c.find "irPath" = some v → v.isString = true)

lemma option_some_unique {α : Type _} {o : Option α} {x y : α}
    (h1 : o = some x) (h2 : o = some y) : x = y := by
  rw [h1] at h2; injection h2

lemma legacyInputParams_char (j : Json) :
    (∃ p, legacyInputParams j = .ok p) ↔
      (∀ a, j.find "audio" = some a → a.isObject = true →
         ∀ v, a.find "inputTrimDb" = some v → v.isNumber = true) := by
  unfold legacyInputParams
  rcases hf : j.find "audio" with _ | a
  · exact Iff.intro (fun _ a' ha' => by cases ha') (fun _ => ⟨_, rfl⟩)
  rcases hobj : a.isObject with _ | _
  · simp only [hobj, Bool.false_eq_true, if_false]
    refine Iff.intro (fun _ a' ha' hobj' v' hv' => ?_) (fun _ => ⟨_, rfl⟩)
    injection ha' with haa
    subst haa
    rw [hobj'] at hobj
    cases hobj
  simp only [hobj, if_true]
  rcases hv : a.find "inputTrimDb" with _ | v
  · refine Iff.intro (fun _ a' ha' hobj' v' hv' => ?_) (fun _ => ⟨_, rfl⟩)
    injection ha' with haa
    subst haa
    rw [hv] at hv'
    cases hv'
  rcases hn : v.isNumber with _ | _
  · simp only [hn, Bool.false_eq_true, if_false]
    refine Iff.intro (fun hex => absurd hex.choose_spec (by simp)) (fun h => ?_)
    exact absurd (h a rfl hobj v hv) (by simp [hn])
  · simp only [hn, if_true]
    refine Iff.intro (fun _ a' ha' hobj' v' hv' => ?_) (fun _ => ⟨_, rfl⟩)
    injection ha' with haa
    subst haa
    rw [option_some_unique hv' hv]
    exact hn

lemma legacyAssetPath_char (j : Json) (key m : String) :
    (∃ r, legacyAssetPath j key m = .ok r) ↔
      (∀ c, j.find "chain" = some c → c.isObject = true →
         ∀ v, c.find key = some v → v.isString = true) := by
  unfold legacyAssetPath
  rcases hf : j.find "chain" with _ | c
  · exact Iff.intro (fun _ c' hc' => by cases hc') (fun _ => ⟨_, rfl⟩)
  rcases hobj : c.isObject with _ | _
  · simp only [hobj, Bool.false_eq_true, if_false]
    refine Iff.intro (fun _ c' hc' hobj' v' hv' => ?_) (fun _ => ⟨_, rfl⟩)
    injection hc' with hcc
    subst hcc
    rw [hobj'] at hobj
    cases hobj
  simp only [hobj, if_true]
  rcases hv : c.find key with _ | v
  · refine Iff.intro (fun _ c' hc' hobj' v' hv' => ?_) (fun _ => ⟨_, rfl⟩)
    injection hc' with hcc
    subst hcc
    rw [hv] at hv'
    cases hv'
  cases v
  case str s =>
    refine Iff.intro (fun _ c' hc' hobj' v' hv' => ?_) (fun _ => ⟨_, rfl⟩)
    injection hc' with hcc
    subst hcc
    rw [option_some_unique hv' hv]
    rfl
  all_goals
    exact Iff.intro
      (fun hex => absurd hex.choose_spec (by simp))
      (fun h => absurd (h c rfl hobj _ hv) (by simp [Json.isString]))

lemma validate_legacySpec (j p : Json) (aa cb : Option AssetRef) :
    validateChainSpec (legacySpec j p aa cb) = .ok (legacySpec j p aa cb) := by
  rfl

lemma parseLegacy_ok {j : Json} (hcond : legacyOkCond j) :
    ∃ s, parseLegacy j = .ok s ∧ validateChainSpec s = .ok s := by
  obtain ⟨p, hp⟩ := (legacyInputParams_char j).mpr hcond.1
  obtain ⟨aa, ha⟩ := (legacyAssetPath_char j "namModelPath"
    "legacy chain.namModelPath must be string").mpr hcond.2.1
  obtain ⟨cb, hc⟩ := (legacyAssetPath_char j "irPath"
    "legacy chain.irPath must be string").mpr hcond.2.2
  refine ⟨_, ?_, validate_legacySpec j p aa cb⟩
  unfold parseLegacy
  rw [hp, ha, hc]

lemma parseLegacy_err {j : Json} (hcond : ¬ legacyOkCond j) :
    ∃ e, parseLegacy j = .error e := by
  unfold parseLegacy
  by_cases h1 : ∃ p, legacyInputParams j = .ok p
  · obtain ⟨p, hp⟩ := h1
    rw [hp]
    by_cases h2 : ∃ r, legacyAssetPath j "namModelPath"
        "legacy chain.namModelPath must be string" = .ok r
    · obtain ⟨aa, ha⟩ := h2
      rw [ha]
      by_cases h3 : ∃ r, legacyAssetPath j "irPath"
          "legacy chain.irPath must be string" = .ok r
      · exact absurd ⟨(legacyInputParams_char j).mp ⟨p, hp⟩,
          (legacyAssetPath_char j _ _).mp ⟨aa, ha⟩,
          (legacyAssetPath_char j _ _).mp h3⟩ hcond
      · rcases hc : legacyAssetPath j "irPath" "legacy chain.irPath must be string" with e | r
        · exact ⟨_, rfl⟩
        · exact absurd ⟨r, hc⟩ h3
    · rcases ha : legacyAssetPath j "namModelPath"
          "legacy chain.namModelPath must be string" with e | r
      · exact ⟨_, rfl⟩
      · exact absurd ⟨r, ha⟩ h2
  · rcases hp : legacyInputParams j with e | p
    · exact ⟨_, rfl⟩
    · exact absurd ⟨p, hp⟩ h1

/-- The sampleRate a canonical parse stores. -/
def canonSR (j : Json) : ℕ :=
  match j.find "sampleRate" with
  | some (Json.int sr) => (toInt32 sr).toNat
  | _ => 48000

/-- Claim-side: the version field is an integer whose `get<int>()` 32-bit
wrap equals 1 (e.g. both 1 and 4294967297 qualify). -/
def versionOk (j : Json) : Prop :=
  ∃ v, j.find "version" = some (Json.int v) ∧ toInt32 v = 1

lemma parseCanonicalV1_ok {j : Json} {xs : List Json}
    (hchain : j.find "chain" = some (Json.arr xs))
    (hv : versionOk j) (hsr : srOk j = true)
    (hwf : xs.all nodeWellFormed = true) :
    parseCanonicalV1 j =
      .ok { version := 1, sampleRate := canonSR j, chain := xs.map nodeFromJson } := by
  obtain ⟨v, hfind, hwrap⟩ := hv
  unfold parseCanonicalV1
  rw [hfind]
  dsimp only
  rw [if_neg (by omega)]
  rw [canonicalSampleRate_of_ok hsr, hchain]
  dsimp only
  rw [parseNodeList_of_wf hwf, hwrap]
  rfl

lemma parseCanonicalV1_err {j : Json} {xs : List Json}
    (hchain : j.find "chain" = some (Json.arr xs))
    (hbad : ¬ (versionOk j ∧ srOk j = true ∧
               xs.all nodeWellFormed = true)) :
    ∃ e, parseCanonicalV1 j = .error e := by
  unfold parseCanonicalV1
  rcases hv : j.find "version" with _ | v
  · exact ⟨_, rfl⟩
  cases v
  case int n =>
    by_cases hn : toInt32 n = 1
    · dsimp only
      rw [if_neg (by omega)]
      rcases hsr : srOk j with _ | _
      · obtain ⟨e, he⟩ := canonicalSampleRate_err hsr
        rw [he]
        exact ⟨_, rfl⟩
      · rw [canonicalSampleRate_of_ok hsr, hchain]
        dsimp only
        rcases hwf : xs.all nodeWellFormed with _ | _
        · obtain ⟨e, he⟩ := parseNodeList_err hwf
          rw [he]
          exact ⟨_, rfl⟩
        · exact absurd ⟨⟨n, hv, hn⟩, hsr, hwf⟩ hbad
    · dsimp only
      rw [if_pos hn]
      exact ⟨_, rfl⟩
  all_goals exact ⟨_, rfl⟩

/-- Claim-side: the canonical-shape heuristic of `parseChainJson`. -/
def canonShape (j : Json) : Prop :=
  j.contains "version" = true ∧ ∃ xs, j.find "chain" = some (Json.arr xs)

/-- Claim-side acceptance condition on the canonical path. -/
def canonAccept (j : Json) : Prop :=
  versionOk j ∧ srOk j = true ∧
  ∃ xs, j.find "chain" = some (Json.arr xs) ∧ xs.all nodeWellFormed = true ∧
        validNodes (xs.map nodeFromJson)

lemma parseChainJson_canon {j : Json} (hobj : j.isObject = true) (hs : canonShape j) :
    parseChainJson j = parseCanonicalV1 j := by
  obtain ⟨hver, xs, hchain⟩ := hs
  unfold parseChainJson
  rw [hobj]
  simp only [Bool.not_true, Bool.false_eq_true, if_false]
  rw [if_pos (by
    rw [Bool.and_eq_true, Bool.and_eq_true]
    exact ⟨⟨hver, by simp [Json.contains, hchain]⟩, by simp [hchain, Json.isArray]⟩)]

lemma parseChainJson_legacy {j : Json} (hobj : j.isObject = true) (hs : ¬ canonShape j) :
    parseChainJson j = parseLegacy j := by
  unfold parseChainJson
  rw [hobj]
  simp only [Bool.not_true, Bool.false_eq_true, if_false]
  rw [if_neg]
  intro hcond
  rw [Bool.and_eq_true, Bool.and_eq_true] at hcond
  obtain ⟨⟨hver, _⟩, harr⟩ := hcond
  refine hs ⟨hver, ?_⟩
  rcases hchain : j.find "chain" with _ | v
  · rw [hchain] at harr; simp [Json.isArray] at harr
  rw [hchain] at harr
  cases v <;> simp [Json.isArray] at harr
  exact ⟨_, rfl⟩

lemma parseAndValidate_ok_char (j : Json) :
    (∃ s, parseAndValidate j = .ok s) ↔
      (j.isObject = true ∧
        ((canonShape j ∧ canonAccept j) ∨ (¬ canonShape j ∧ legacyOkCond j))) := by
  rcases hobj : j.isObject with _ | _
  · unfold parseAndValidate parseChainJson
    rw [hobj]
    simp only [Bool.not_false, if_pos]
    constructor
    · rintro ⟨s, hs⟩; cases hs
    · rintro ⟨ho, _⟩; cases ho
  by_cases hs : canonShape j
  · unfold parseAndValidate
    rw [parseChainJson_canon hobj hs]
    obtain ⟨hver, xs, hchain⟩ := hs
    constructor
    · rintro ⟨s, hss⟩
      refine ⟨rfl, Or.inl ⟨⟨hver, xs, hchain⟩, ?_⟩⟩
      by_cases hacc : versionOk j ∧ srOk j = true ∧
          xs.all nodeWellFormed = true
      · obtain ⟨h1, h2, h3⟩ := hacc
        rw [parseCanonicalV1_ok hchain h1 h2 h3] at hss
        dsimp only at hss
        have hvs := (validateChainSpec_isOk_iff _).mp (by rw [hss]; rfl)
        exact ⟨h1, h2, xs, hchain, h3, hvs.2⟩
      · obtain ⟨e, he⟩ := parseCanonicalV1_err hchain hacc
        rw [he] at hss
        cases hss
    · rintro ⟨_, hacc | hacc⟩
      · obtain ⟨_, h1, h2, xs', hchain', h3, hvn⟩ := hacc
        have hxs : xs' = xs := by
          have := option_some_unique hchain' hchain
          injection this
        rw [hxs] at h3 hvn
        rw [parseCanonicalV1_ok hchain h1 h2 h3]
        dsimp only
        have : validSpec { version := 1, sampleRate := canonSR j,
                           chain := xs.map nodeFromJson } := ⟨rfl, hvn⟩
        have hok := (validateChainSpec_isOk_iff _).mpr this
        rcases hv : validateChainSpec { version := 1, sampleRate := canonSR j,
                                        chain := xs.map nodeFromJson } with e | s
        · rw [hv] at hok; simp [Except.isOk, Except.toBool] at hok
        · exact ⟨s, rfl⟩
      · exact absurd ⟨hver, xs, hchain⟩ hacc.1
  · unfold parseAndValidate
    rw [parseChainJson_legacy hobj hs]
    constructor
    · rintro ⟨s, hss⟩
      refine ⟨rfl, Or.inr ⟨hs, ?_⟩⟩
      by_cases hcond : legacyOkCond j
      · exact hcond
      · obtain ⟨e, he⟩ := parseLegacy_err hcond
        rw [he] at hss
        cases hss
    · rintro ⟨_, hacc | hacc⟩
      · exact absurd hacc.1 hs
      · obtain ⟨s, hps, hvs⟩ := parseLegacy_ok hacc.2
        rw [hps]
        exact ⟨s, hvs⟩

lemma except_error_iff_not_ok {α : Type _} (x : Except String α) :
    (∃ e, x = .error e) ↔ ¬ (∃ s, x = .ok s) := by
  cases x <;> simp

/-- C8 (amended): the parse-and-validate pipeline produces a ValidationError
exactly when the top-level is not an object; or the input has canonical shape
(has `version` and an array `chain`) and the canonical conditions fail
(version not an integer whose 32-bit `get<int>()` wrap is 1, `sampleRate`
present but not integer-stored or wrapping to a non-positive int32, a
malformed node, or the validator invariants violated on the parsed node
list); or the input is an object without canonical shape, is converted from
the legacy shape, and a legacy field has the wrong type. -/
theorem parse_validate_error_iff (j : Json) :
    (∃ e, parseAndValidate j = .error e) ↔
      (j.isObject = false ∨
       (canonShape j ∧ ¬ canonAccept j) ∨
       (¬ canonShape j ∧ j.isObject = true ∧ ¬ legacyOkCond j)) := by
  rw [except_error_iff_not_ok, parseAndValidate_ok_char]
  rcases hobj : j.isObject with _ | _
  · simp [hobj]
  · simp [hobj]
    tauto

/-- C8 counterexample to the claim as stated: the empty JSON object has no
`version` field, yet the pipeline accepts it (legacy conversion produces a
valid four-node chain), so "version missing ⟹ ValidationError" is false. -/
theorem version_missing_accepted :
    (Json.obj []).contains "version" = false ∧
    (∃ s, parseAndValidate (Json.obj []) = .ok s) := by
  exact ⟨rfl, ⟨legacySpec (Json.obj []) (Json.obj []) none none, rfl⟩⟩

/-! ### C3: SignalChain::process (signal_chain.cpp:68)

The two scratch buffers and the pointer ping-pong are modelled
functionally: each node is the abstract per-block transfer function of its
`INode::process`, and node i+1 consumes node i's output buffer.  The
optional timing instrumentation does not touch the data path. -/

def chainProcess (nodes : List (List ℝ → List ℝ)) (maxBlockFrames : ℕ)
    (input : List ℝ) (nframes : ℕ) : List ℝ :=
  let frames := min nframes maxBlockFrames
  match nodes with
  | [] => input.take nframes
  | n0 :: rest =>
      let alast := rest.foldl (fun a f => f a) (n0 (input.take frames))
      alast.take frames ++ (input.drop frames).take (nframes - frames)

lemma foldl_length_preserved {rest : List (List ℝ → List ℝ)} {a : List ℝ}
    (h : ∀ f ∈ rest, ∀ l, (f l).length = l.length) :
    (rest.foldl (fun a f => f a) a).length = a.length := by
  induction rest generalizing a with
  | nil => rfl
  | cons f fs ih =>
      rw [List.foldl_cons]
      rw [ih (fun g hg => h g (List.mem_cons_of_mem _ hg))]
      exact h f (by simp) a

/-- C3: `process` copies the input through when the node list is empty;
otherwise node 0 runs on the (clamped) input, each later node consumes the
previous node's output, the last node's output forms the first
`min k M` samples of `out`, the tail `[min k M, k)` is the input copied
through unchanged, and when every node is length-preserving the output has
exactly `k` samples (in particular exactly `k` for every `k ≤ M`). -/
theorem signal_chain_process_spec
    (nodes : List (List ℝ → List ℝ)) (M k : ℕ) (input : List ℝ)
    (hlen : input.length = k)
    (hpres : ∀ f ∈ nodes, ∀ l, (f l).length = l.length) :
    (chainProcess nodes M input k).length = k ∧
    (nodes = [] → chainProcess nodes M input k = input) ∧
    (∀ n0 rest, nodes = n0 :: rest →
       chainProcess nodes M input k =
         (rest.foldl (fun a f => f a) (n0 (input.take (min k M)))).take (min k M) ++
           input.drop (min k M)) ∧
    (∀ i, min k M ≤ i → i < k →
       (chainProcess nodes M input k).getD i 0 = input.getD i 0) := by
  have hdt : (input.drop (min k M)).take (k - min k M) = input.drop (min k M) := by
    apply List.take_of_length_le
    rw [List.length_drop, hlen]
  rcases nodes with _ | ⟨n0, rest⟩
  · refine ⟨?_, fun _ => ?_, ?_, ?_⟩
    · simp [chainProcess, hlen]
    · simp [chainProcess, ← hlen]
    · intro n0 rest h; cases h
    · intro i h1 h2
      unfold chainProcess
      rw [List.getD_eq_getElem?_getD, List.getD_eq_getElem?_getD,
          List.getElem?_take_of_lt h2]
  · have halen : (rest.foldl (fun a f => f a) (n0 (input.take (min k M)))).length
        = min k M := by
      rw [foldl_length_preserved (fun g hg => hpres g (List.mem_cons_of_mem _ hg))]
      rw [hpres n0 (by simp), List.length_take, hlen]
      omega
    have hout : chainProcess (n0 :: rest) M input k =
        (rest.foldl (fun a f => f a) (n0 (input.take (min k M)))).take (min k M) ++
          input.drop (min k M) := by
      unfold chainProcess
      dsimp only
      rw [hdt]
    refine ⟨?_, ?_, ?_, ?_⟩
    · rw [hout]
      rw [List.length_append]
      rw [List.length_take]
      rw [halen]
      rw [List.length_drop]
      rw [hlen]
      clear halen hout hpres
      omega
    · intro h
      cases h
    · intro m rs h
      injection h with h1 h2
      subst h1
      subst h2
      exact hout
    · intro i h1 h2
      rw [hout]
      rw [List.getD_eq_getElem?_getD, List.getD_eq_getElem?_getD]
      rw [List.getElem?_append_right (by rw [List.length_take, halen]; simpa using h1)]
      rw [List.getElem?_drop]
      rw [List.length_take, halen]
      congr 2
      clear halen hout hpres
      omega

theorem signal_chain_process_spec_witness :
    ([(1 : ℝ), 3].length = 2) ∧
    (∀ f ∈ [fun l : List ℝ => l.map (fun x => 2 * x)], ∀ l : List ℝ, (f l).length = l.length) ∧
    ((chainProcess [fun l : List ℝ => l.map (fun x => 2 * x)] 4 [(1 : ℝ), 3] 2).length = 2 ∧
     ([fun l : List ℝ => l.map (fun x => 2 * x)] = ([] : List (List ℝ → List ℝ)) →
        chainProcess [fun l : List ℝ => l.map (fun x => 2 * x)] 4 [(1 : ℝ), 3] 2 = [(1 : ℝ), 3]) ∧
     (∀ n0 rest, [fun l : List ℝ => l.map (fun x => 2 * x)] = n0 :: rest →
        chainProcess [fun l : List ℝ => l.map (fun x => 2 * x)] 4 [(1 : ℝ), 3] 2 =
          (rest.foldl (fun a f => f a) (n0 ([(1 : ℝ), 3].take (min 2 4)))).take (min 2 4) ++
            [(1 : ℝ), 3].drop (min 2 4)) ∧
     (∀ i, min 2 4 ≤ i → i < 2 →
        (chainProcess [fun l : List ℝ => l.map (fun x => 2 * x)] 4 [(1 : ℝ), 3] 2).getD i 0 =
          [(1 : ℝ), 3].getD i 0)) :=
  ⟨rfl, by simp,
   signal_chain_process_spec [fun l : List ℝ => l.map (fun x => 2 * x)] 4 2 [(1 : ℝ), 3]
     rfl (by simp)⟩

/-! ### Partitioned FFT convolver (fft_convolver.cpp)

fftwf's r2c/c2r transforms of size N=2B on real data compute the full
complex DFT: only the N/2+1 Hermitian-non-redundant bins are stored, which
is exact because every spectrum the convolver holds is the DFT of a real
signal or a bin-wise product of such (hence Hermitian).  We model spectra
as full functions `ZMod N → ℂ`: `fftwf_execute_dft_r2c` is the full DFT of
the real input, the bin loop with `cmul_acc` is the bin-wise
multiply-accumulate over all N bins, and `fftwf_execute_dft_c2r` is the
unnormalised inverse DFT (the code divides by N afterwards). -/

instance instNeZeroTwoMul (B : ℕ) [NeZero B] : NeZero (2 * B) :=
  ⟨Nat.mul_ne_zero two_ne_zero (NeZero.ne B)⟩

/-- Forward transform (`fftwf_execute_dft_r2c`) of an N-sample buffer. -/
noncomputable def fwdDFT (N : ℕ) [NeZero N] (x : ℕ → ℂ) : ZMod N → ℂ :=
  ZMod.dft (fun j : ZMod N => x j.val)

/-- Unnormalised inverse transform (`fftwf_execute_dft_c2r`), sample i. -/
noncomputable def bwdDFT (N : ℕ) [NeZero N] (X : ZMod N → ℂ) (i : ℕ) : ℂ :=
  (N : ℂ) * (ZMod.dft.symm X) ((i : ZMod N))

/-- Convolver state (the members of FFTConvolverPartitioned; mFFT = 2B and
mBins are derived; slots outside `[0, parts)` of `H`/`X` are never read). -/
structure ConvState (B : ℕ) where
  parts : ℕ
  H : ℕ → ZMod (2 * B) → ℂ
  X : ℕ → ZMod (2 * B) → ℂ
  overlap : ℕ → ℝ
  write : ℕ
  ready : Bool

/-- Partition k of the IR, zero-padded to the FFT size: the first B samples
are `ir[kB .. kB+B)` (zero past the end), the second half is zero
(fft_convolver.cpp:144). -/
noncomputable def irPartR (ir : List ℝ) (B k : ℕ) : ℕ → ℝ :=
  fun i => if i < B then ir.getD (k * B + i) 0 else 0

def ceilParts (ir : List ℝ) (B : ℕ) : ℕ := (ir.length + B - 1) / B

/-- The state `init` builds (fft_convolver.cpp:91): IR partition spectra
precomputed, input-spectrum ring and overlap zeroed, write index 0. -/
noncomputable def initConvState (B : ℕ) [NeZero B] (ir : List ℝ) : ConvState B :=
  { parts := ceilParts ir B,
    H := fun k => fwdDFT (2 * B) (fun i => (irPartR ir B k i : ℂ)),
    X := fun _ _ => 0,
    overlap := fun _ => 0,
    write := 0,
    ready := true }

/-- `init(ir, blockSize)`: fails for an empty IR (`mParts <= 0`); the
`blockSize <= 0` guard is carried by `[NeZero B]`. -/
noncomputable def convInit (B : ℕ) [NeZero B] (ir : List ℝ) : Option (ConvState B) :=
  if ceilParts ir B = 0 then none else some (initConvState B ir)

/-- `idx = mWrite - k; if (idx < 0) idx += mParts` for `0 ≤ k < parts`. -/
def ringIdx (w parts k : ℕ) : ℕ := (w + parts - k) % parts

/-- The input block zero-padded to the FFT size (fft_convolver.cpp:177). -/
noncomputable def padC (B : ℕ) (input : ℕ → ℝ) : ℕ → ℂ :=
  fun i => if i < B then (input i : ℂ) else 0

/-- The X ring after writing the new input spectrum at `mWrite`. -/
noncomputable def spectraAfterWrite {B : ℕ} [NeZero B] (s : ConvState B)
    (input : ℕ → ℝ) : ℕ → ZMod (2 * B) → ℂ :=
  fun k => if k = s.write then fwdDFT (2 * B) (padC B input) else s.X k

/-- `Y[b] = Σ_k X[(w−k) mod K][b] · H[k][b]` (fft_convolver.cpp:184). -/
noncomputable def accumY {B : ℕ} [NeZero B] (s : ConvState B) (input : ℕ → ℝ) :
    ZMod (2 * B) → ℂ :=
  fun b => ∑ k in Finset.range s.parts,
    spectraAfterWrite s input (ringIdx s.write s.parts k) b * s.H k b

/-- The inverse-transform output buffer (before the 1/N normalisation). -/
noncomputable def timeOutF {B : ℕ} [NeZero B] (s : ConvState B) (input : ℕ → ℝ)
    (i : ℕ) : ℝ :=
  (bwdDFT (2 * B) (accumY s input) i).re

/-- `processBlock(in, out, n)` (fft_convolver.cpp:170). -/
noncomputable def processBlock {B : ℕ} [NeZero B] (s : ConvState B) (input : ℕ → ℝ)
    (n : ℕ) : Option (List ℝ × ConvState B) :=
  if !s.ready || n ≠ B then none
  else
    some ((List.range B).map (fun i => timeOutF s input i / (2 * B) + s.overlap i),
          { parts := s.parts, H := s.H,
            X := spectraAfterWrite s input,
            overlap := fun i => timeOutF s input (i + B) / (2 * B),
            write := (s.write + 1) % s.parts,
            ready := s.ready })

/-- Feeding a sequence of blocks; collects the produced output blocks. -/
noncomputable def runBlocks {B : ℕ} [NeZero B] (s : ConvState B) :
    List (ℕ → ℝ) → Option (List (List ℝ) × ConvState B)
  | [] => some ([], s)
  | x :: xs =>
      match processBlock s x B with
      | none => none
      | some (out, s') =>
          match runBlocks s' xs with
          | none => none
          | some (outs, sf) => some (out :: outs, sf)

def impulseBlock : ℕ → ℝ := fun i => if i = 0 then 1 else 0

def zeroBlock : ℕ → ℝ := fun _ => 0

/-- Partition t of the IR as a B-sample output block. -/
noncomputable def partitionBlock (ir : List ℝ) (B t : ℕ) : List ℝ :=
  (List.range B).map (fun i => ir.getD (t * B + i) 0)

lemma fwdDFT_impulse (N B : ℕ) [NeZero N] (hB : 0 < B) :
    fwdDFT N (padC B impulseBlock) = fun _ => 1 := by
  funext k
  unfold fwdDFT
  rw [ZMod.dft_apply]
  rw [Finset.sum_eq_single 0]
  · simp [padC, impulseBlock, ZMod.val_zero, hB]
  · intro b _ hb
    have hv : b.val ≠ 0 := fun hv => hb ((ZMod.val_eq_zero b).mp hv)
    simp [padC, impulseBlock, hv]
  · simp

lemma fwdDFT_zeroBlock (N B : ℕ) [NeZero N] :
    fwdDFT N (padC B zeroBlock) = fun _ => 0 := by
  unfold fwdDFT
  have h : (fun j : ZMod N => padC B zeroBlock j.val) = (0 : ZMod N → ℂ) := by
    funext j
    simp [padC, zeroBlock]
  rw [h, map_zero]
  rfl

lemma bwdDFT_fwdDFT (N : ℕ) [NeZero N] (x : ℕ → ℂ) {i : ℕ} (h : i < N) :
    bwdDFT N (fwdDFT N x) i = (N : ℂ) * x i := by
  unfold bwdDFT fwdDFT
  rw [LinearEquiv.symm_apply_apply]
  rw [ZMod.val_cast_of_lt h]

lemma ringIdx_eq_zero_iff {K t k : ℕ} (ht : t < K) (hk : k < K) :
    ringIdx t K k = 0 ↔ k = t := by
  unfold ringIdx
  constructor
  · intro h
    rcases Nat.lt_trichotomy k t with hlt | heq | hgt
    · have he : t + K - k = K + (t - k) := by omega
      rw [he, Nat.add_mod_left] at h
      rw [Nat.mod_eq_of_lt (by omega)] at h
      omega
    · exact heq
    · rw [Nat.mod_eq_of_lt (by omega)] at h
      omega
  · intro h
    subst h
    have he : k + K - k = K := by omega
    rw [he, Nat.mod_self]

lemma accumY_eq_H {B : ℕ} [NeZero B] (s : ConvState B) (input : ℕ → ℝ)
    (hw : s.write < s.parts)
    (h1 : ∀ b, spectraAfterWrite s input 0 b = 1)
    (h0 : ∀ k b, k ≠ 0 → spectraAfterWrite s input k b = 0) :
    accumY s input = s.H s.write := by
  funext b
  unfold accumY
  rw [Finset.sum_eq_single s.write]
  · rw [(ringIdx_eq_zero_iff hw hw).mpr rfl, h1 b, one_mul]
  · intro k hk hne
    have : ringIdx s.write s.parts k ≠ 0 := by
      rw [Ne, ringIdx_eq_zero_iff hw (Finset.mem_range.mp hk)]
      exact hne
    rw [h0 _ b this, zero_mul]
  · intro hmem
    exact absurd (Finset.mem_range.mpr hw) hmem

lemma processBlock_partition {B : ℕ} [NeZero B] (ir : List ℝ) (t : ℕ) (s : ConvState B)
    (input : ℕ → ℝ)
    (ht : t < ceilParts ir B)
    (hready : s.ready = true)
    (hparts : s.parts = ceilParts ir B)
    (hwrite : s.write = t)
    (hH : ∀ k, s.H k = fwdDFT (2 * B) (fun i => (irPartR ir B k i : ℂ)))
    (hov : ∀ i, i < B → s.overlap i = 0)
    (h1 : ∀ b, spectraAfterWrite s input 0 b = 1)
    (h0 : ∀ k b, k ≠ 0 → spectraAfterWrite s input k b = 0) :
    ∃ s', processBlock s input B = some (partitionBlock ir B t, s') ∧
      s'.ready = true ∧ s'.parts = s.parts ∧ s'.H = s.H ∧
      s'.write = (t + 1) % s.parts ∧
      s'.X = spectraAfterWrite s input ∧
      (∀ i, i < B → s'.overlap i = 0) := by
  have hB : 0 < B := Nat.pos_of_ne_zero (NeZero.ne B)
  have hacc : accumY s input = s.H t := by
    rw [← hwrite]
    exact accumY_eq_H s input (by rw [hwrite, hparts]; exact ht) h1 h0
  have htime : ∀ i, i < 2 * B → timeOutF s input i = (2 * B : ℕ) * irPartR ir B t i := by
    intro i hi
    unfold timeOutF
    rw [hacc, hH t, bwdDFT_fwdDFT _ _ hi]
    have hc : ((2 * B : ℕ) : ℂ) * ((irPartR ir B t i : ℝ) : ℂ) =
        ((((2 * B : ℕ) : ℝ) * irPartR ir B t i : ℝ) : ℂ) := by
      push_cast
      ring
    rw [hc, Complex.ofReal_re]
  have hNne : ((2 * B : ℕ) : ℝ) ≠ 0 := by positivity
  refine ⟨{ parts := s.parts, H := s.H, X := spectraAfterWrite s input,
            overlap := fun i => timeOutF s input (i + B) / (2 * B),
            write := (s.write + 1) % s.parts, ready := s.ready },
          ?_, hready, rfl, rfl, by rw [hwrite], rfl, ?_⟩
  · unfold processBlock
    rw [if_neg (by simp [hready])]
    simp only [Option.some.injEq, Prod.mk.injEq]
    refine ⟨?_, trivial⟩
    unfold partitionBlock
    apply List.map_congr_left
    intro i hi
    have hiB : i < B := List.mem_range.mp hi
    rw [htime i (by omega), hov i hiB, irPartR]
    rw [if_pos hiB]
    push_cast
    field_simp
  · intro i hiB
    dsimp only
    rw [htime (i + B) (by omega), irPartR, if_neg (by omega)]
    simp

/-- State invariant after `t ≥ 1` blocks of the impulse-then-zeros feed:
slot 0 of the spectrum ring holds the impulse's flat spectrum, every other
slot is zero, the overlap is zero, and the write index has advanced t times. -/
def ConvInv (ir : List ℝ) (B : ℕ) [NeZero B] (t : ℕ) (s : ConvState B) : Prop :=
  s.ready = true ∧ s.parts = ceilParts ir B ∧ s.write = t % ceilParts ir B ∧
  (∀ k, s.H k = fwdDFT (2 * B) (fun i => (irPartR ir B k i : ℂ))) ∧
  (∀ b, s.X 0 b = 1) ∧ (∀ k b, k ≠ 0 → s.X k b = 0) ∧
  (∀ i, i < B → s.overlap i = 0)

lemma conv_step_zero {B : ℕ} [NeZero B] {ir : List ℝ} {t : ℕ} {s : ConvState B}
    (ht1 : 1 ≤ t) (ht : t < ceilParts ir B) (hinv : ConvInv ir B t s) :
    ∃ s', processBlock s zeroBlock B = some (partitionBlock ir B t, s') ∧
      ConvInv ir B (t + 1) s' := by
  obtain ⟨hready, hparts, hwrite, hH, hX1, hX0, hov⟩ := hinv
  have hwt : s.write = t := by rw [hwrite, Nat.mod_eq_of_lt ht]
  have hwne : s.write ≠ 0 := by omega
  have h1 : ∀ b, spectraAfterWrite s zeroBlock 0 b = 1 := by
    intro b
    unfold spectraAfterWrite
    rw [if_neg (by omega), hX1 b]
  have h0 : ∀ k b, k ≠ 0 → spectraAfterWrite s zeroBlock k b = 0 := by
    intro k b hk
    unfold spectraAfterWrite
    split_ifs with he
    · rw [fwdDFT_zeroBlock]
    · exact hX0 k b hk
  obtain ⟨s', hpb, hready', hparts', hH', hwrite', hXeq, hov'⟩ :=
    processBlock_partition ir t s zeroBlock ht hready hparts hwt hH hov h1 h0
  refine ⟨s', hpb, hready', by rw [hparts', hparts], ?_, ?_, ?_, ?_, hov'⟩
  · rw [hwrite', hparts]
  · intro k; rw [hH']; exact hH k
  · intro b; rw [hXeq]; exact h1 b
  · intro k b hk; rw [hXeq]; exact h0 k b hk

lemma conv_step_impulse {B : ℕ} [NeZero B] {ir : List ℝ}
    (hK : 1 ≤ ceilParts ir B) :
    ∃ s', processBlock (initConvState B ir) impulseBlock B =
        some (partitionBlock ir B 0, s') ∧ ConvInv ir B 1 s' := by
  have hB : 0 < B := Nat.pos_of_ne_zero (NeZero.ne B)
  have h1 : ∀ b, spectraAfterWrite (initConvState B ir) impulseBlock 0 b = 1 := by
    intro b
    unfold spectraAfterWrite initConvState
    rw [if_pos rfl, fwdDFT_impulse _ _ hB]
  have h0 : ∀ k b, k ≠ 0 →
      spectraAfterWrite (initConvState B ir) impulseBlock k b = 0 := by
    intro k b hk
    unfold spectraAfterWrite initConvState
    rw [if_neg (by simpa using hk)]
  obtain ⟨s', hpb, hready', hparts', hH', hwrite', hXeq, hov'⟩ :=
    processBlock_partition ir 0 (initConvState B ir) impulseBlock (by omega) rfl rfl rfl
      (fun k => rfl) (fun i _ => rfl) h1 h0
  refine ⟨s', hpb, hready', by rw [hparts']; rfl, ?_, ?_, ?_, ?_, hov'⟩
  · rw [hwrite']
    show (0 + 1) % (initConvState B ir).parts = 1 % ceilParts ir B
    rfl
  · intro k; rw [hH']; rfl
  · intro b; rw [hXeq]; exact h1 b
  · intro k b hk; rw [hXeq]; exact h0 k b hk

lemma conv_run_zeros {B : ℕ} [NeZero B] (ir : List ℝ) :
    ∀ (m t : ℕ) (s : ConvState B), 1 ≤ t → t + m = ceilParts ir B →
      ConvInv ir B t s →
      (runBlocks s (List.replicate m zeroBlock)).map Prod.fst =
        some ((List.range m).map (fun r => partitionBlock ir B (t + r))) := by
  intro m
  induction m with
  | zero => intro t s _ _ _; rfl
  | succ m ih =>
      intro t s ht1 hsum hinv
      have ht : t < ceilParts ir B := by omega
      obtain ⟨s', hpb, hinv'⟩ := conv_step_zero ht1 ht hinv
      rw [List.replicate_succ]
      unfold runBlocks
      rw [hpb]
      have hrec := ih (t + 1) s' (by omega) (by omega) hinv'
      rcases hr : runBlocks s' (List.replicate m zeroBlock) with _ | ⟨outs, sf⟩
      · rw [hr] at hrec; cases hrec
      · rw [hr] at hrec
        dsimp only
        rw [hr]
        simp only [Option.map_some] at hrec ⊢
        injection hrec with hrec
        dsimp only at hrec ⊢
        rw [hrec]
        rw [List.range_succ_eq_map, List.map_cons, List.map_map]
        simp only [Option.map_some', Option.some.injEq]
        congr 1
        apply List.map_congr_left
        intro r _
        simp only [Function.comp_apply]
        congr 1
        omega

/-- C1: a convolver successfully initialised from IR `h` of length L ≥ 1,
fed the unit impulse block then all-zero blocks, reproduces `h` zero-padded
to a block boundary over the first ⌈L/B⌉ output blocks (exactly, in the
real-arithmetic model). -/
theorem convolver_impulse_roundtrip (B : ℕ) [NeZero B] (ir : List ℝ)
    (s₀ : ConvState B) (hinit : convInit B ir = some s₀) :
    (runBlocks s₀
        (impulseBlock :: List.replicate (ceilParts ir B - 1) zeroBlock)).map Prod.fst =
      some ((List.range (ceilParts ir B)).map (partitionBlock ir B)) := by
  have hKinit : ¬ ceilParts ir B = 0 := by
    intro h
    unfold convInit at hinit
    rw [if_pos h] at hinit
    cases hinit
  have hs₀ : s₀ = initConvState B ir := by
    unfold convInit at hinit
    rw [if_neg hKinit] at hinit
    injection hinit with h
    exact h.symm
  subst hs₀
  have hK : 1 ≤ ceilParts ir B := by omega
  obtain ⟨s₁, hpb, hinv₁⟩ := @conv_step_impulse _ _ ir hK
  unfold runBlocks
  rw [hpb]
  have hrec := conv_run_zeros ir (ceilParts ir B - 1) 1 s₁ (by omega) (by omega) hinv₁
  rcases hr : runBlocks s₁ (List.replicate (ceilParts ir B - 1) zeroBlock) with _ | ⟨outs, sf⟩
  · rw [hr] at hrec; cases hrec
  · rw [hr] at hrec
    dsimp only
    rw [hr]
    simp only [Option.map_some] at hrec ⊢
    injection hrec with hrec
    dsimp only at hrec ⊢
    rw [hrec]
    have hKs : ceilParts ir B = (ceilParts ir B - 1) + 1 := by omega
    rw [hKs, List.range_succ_eq_map, List.map_cons, List.map_map]
    simp only [Option.map_some', Option.some.injEq, Nat.add_sub_cancel]
    congr 1
    apply List.map_congr_left
    intro r _
    simp only [Function.comp_apply]
    congr 1
    omega

def irSample : List ℝ := [0.25, 0.5, -0.25, 0.125]

theorem convolver_impulse_roundtrip_witness :
    convInit 4 irSample = some (initConvState 4 irSample) ∧
    (runBlocks (initConvState 4 irSample)
        (impulseBlock :: List.replicate (ceilParts irSample 4 - 1) zeroBlock)).map Prod.fst =
      some [[(0.25 : ℝ), 0.5, -0.25, 0.125]] := by
  have hinit : convInit 4 irSample = some (initConvState 4 irSample) := by
    unfold convInit
    rw [if_neg (by norm_num [ceilParts, irSample])]
  refine ⟨hinit, ?_⟩
  have h := convolver_impulse_roundtrip 4 irSample (initConvState 4 irSample) hinit
  have hK : ceilParts irSample 4 = 1 := by norm_num [ceilParts, irSample]
  rw [hK] at h
  have hpart : (List.range 1).map (partitionBlock irSample 4) =
      [[(0.25 : ℝ), 0.5, -0.25, 0.125]] := by
    simp [partitionBlock, List.range_succ, irSample]
  rw [hpart] at h
  exact h

/-! ### Runtime DSP nodes (signal_chain_nodes.cpp)

Floats are exact reals; `process(in, out, n)` on a node becomes a function
on sample lists (`n` = input length), with per-node state threaded
explicitly where the C++ keeps it in members. -/

noncomputable def dbToLin (db : ℝ) : ℝ := (10 : ℝ) ^ (db / 20)

noncomputable def clampf (v lo hi : ℝ) : ℝ :=
  if v < lo then lo else if hi < v then hi else v

/-- `softclipFast` (signal_chain_nodes.cpp:57): saturated inputs return the
clamp value ±1 itself; the cubic uses the literal float constant 0.3333333. -/
noncomputable def softclipFast (x : ℝ) : ℝ :=
  if 1 < x then 1
  else if x < -1 then -1
  else x - (0.3333333 : ℝ) * (x * x * x)

structure NodeStandardParams where
  enabled : Bool := true
  levelDb : ℝ := 0
  mix : ℝ := 1
  levelLin : ℝ := 1
  mixWet : ℝ := 1
  mixDry : ℝ := 0

/-- `numParam` (signal_chain_nodes.cpp:405): a numeric params entry. -/
def numParam (spec : NodeSpec) (k : String) : Option ℚ :=
  match spec.params.find k with
  | some v => if v.isNumber then some v.asNum else none
  | none => none

/-- `parseStd` (signal_chain_nodes.cpp:67): standard params; note the
undocumented `outputGainDb` key overrides `levelDb`, and the result is
clamped to [−48, 24] dB. -/
noncomputable def parseStd (spec : NodeSpec) : NodeStandardParams :=
  let l0 : ℝ := match numParam spec "levelDb" with
    | some q => (q : ℝ)
    | none => 0
  let l1 : ℝ := match numParam spec "outputGainDb" with
    | some q => (q : ℝ)
    | none => l0
  let m0 : ℝ := match numParam spec "mix" with
    | some q => (q : ℝ)
    | none => 1
  let levelDb := clampf l1 (-48) 24
  let mix := clampf m0 0 1
  { enabled := spec.enabled, levelDb := levelDb, mix := mix,
    levelLin := dbToLin levelDb, mixWet := mix, mixDry := 1 - mix }

/-- PassthroughNode::process. -/
noncomputable def passthroughProcess (std : NodeStandardParams) (input : List ℝ) :
    List ℝ :=
  if !std.enabled then input
  else input.map (fun x => x * std.mixDry + (x * std.levelLin) * std.mixWet)

/-- InputNode::process; `trim` is the per-block read of the realtime trim
cell (or the fallback when no cell is bound). -/
noncomputable def inputNodeProcess (std : NodeStandardParams) (trim : ℝ)
    (input : List ℝ) : List ℝ :=
  if !std.enabled then input
  else input.map (fun x => x * std.mixDry + (x * trim * std.levelLin) * std.mixWet)

/-- OutputNode::process. -/
noncomputable def outputNodeProcess (std : NodeStandardParams) (input : List ℝ) :
    List ℝ :=
  if !std.enabled then input
  else input.map (fun x => x * std.mixDry + (x * std.levelLin) * std.mixWet)

structure OverdriveState where
  std : NodeStandardParams
  drive : ℝ
  tone : ℝ
  outDb : ℝ
  pre : ℝ
  postLin : ℝ
  a : ℝ
  toneInv : ℝ
  z1 : ℝ

/-- The OverdriveNode constructor (signal_chain_nodes.cpp:179). -/
noncomputable def mkOverdrive (std : NodeStandardParams) (drive tone outDb : ℝ) :
    OverdriveState :=
  let d := clampf drive 0 1
  let t := clampf tone 0 1
  { std := std, drive := d, tone := t, outDb := outDb,
    pre := 1 + d * 20, a := 0.02 + (1 - t) * 0.2, toneInv := 1 - t,
    postLin := dbToLin outDb * std.levelLin, z1 := 0 }

/-- One iteration of the Overdrive sample loop: returns (out sample, new z). -/
noncomputable def odStep (st : OverdriveState) (z xin : ℝ) : ℝ × ℝ :=
  let x := xin * st.pre
  let y := softclipFast x
  let z' := z + st.a * (y - z)
  let wet := (z' * st.toneInv + y * st.tone) * st.postLin
  (xin * st.std.mixDry + wet * st.std.mixWet, z')

noncomputable def odRun (st : OverdriveState) : ℝ → List ℝ → List ℝ × ℝ
  | z, [] => ([], z)
  | z, x :: xs =>
      let p := odStep st z x
      let r := odRun st p.2 xs
      (p.1 :: r.1, r.2)

/-- OverdriveNode::process (signal_chain_nodes.cpp:197). -/
noncomputable def overdriveProcess (st : OverdriveState) (input : List ℝ) :
    List ℝ × OverdriveState :=
  if !st.std.enabled then (input, st)
  else
    let r := odRun st st.z1 input
    (r.1, { st with z1 := r.2 })

/-- The opaque nam::DSP instance: `run` returns `none` when `process` throws. -/
structure LoadedModel where
  expectedSampleRate : ℝ
  hasInputLevel : Bool
  inputLevel : ℝ
  run : List ℝ → Option (List ℝ)

structure NamState where
  std : NodeStandardParams
  maxFrames : ℕ
  model : Option LoadedModel
  preLin : ℝ
  postLin : ℝ
  lim : ℝ
  softclip : Bool
  softclipTanh : Bool

/-- The NamModelNode input-preparation step (signal_chain_nodes.cpp:299). -/
noncomputable def namPrep (st : NamState) (xin : ℝ) : ℝ :=
  let x := xin * st.preLin
  let xc := if st.lim < x then st.lim else if x < -st.lim then -st.lim else x
  if !st.softclip then xc
  else if st.softclipTanh then Real.tanh xc else softclipFast xc

/-- NamModelNode::process (signal_chain_nodes.cpp:283). -/
noncomputable def namProcess (st : NamState) (input : List ℝ) : List ℝ :=
  let frames := min input.length st.maxFrames
  if !st.std.enabled || st.model.isNone then input
  else
    match st.model with
    | none => input
    | some m =>
        let inBuf := (input.take frames).map (namPrep st)
        let outBuf := match m.run inBuf with
          | some ys => ys
          | none => inBuf
        (List.range frames).map (fun i =>
            input.getD i 0 * st.std.mixDry +
              (outBuf.getD i 0 * st.postLin) * st.std.mixWet)
          ++ input.drop frames

structure IrState (B : ℕ) where
  std : NodeStandardParams
  conv : ConvState B

/-- IrConvolverNode::process (signal_chain_nodes.cpp:369); on a failed
`processBlock` the wet buffer falls back to a copy of the input. -/
noncomputable def irNodeProcess {B : ℕ} [NeZero B] (st : IrState B)
    (input : List ℝ) : List ℝ × IrState B :=
  if !st.std.enabled || !st.conv.ready then (input, st)
  else
    let frames := min input.length B
    match processBlock st.conv (fun i => input.getD i 0) frames with
    | some (outBuf, conv') =>
        ((List.range frames).map (fun i =>
            input.getD i 0 * st.std.mixDry +
              (outBuf.getD i 0 * st.std.levelLin) * st.std.mixWet)
          ++ input.drop frames,
         { st with conv := conv' })
    | none =>
        ((List.range frames).map (fun i =>
            input.getD i 0 * st.std.mixDry +
              (input.getD i 0 * st.std.levelLin) * st.std.mixWet)
          ++ input.drop frames,
         st)

/-! ### Node builder (signal_chain_nodes.cpp:412)

Asset loading (nam::get_dsp, load_ir_mono) is filesystem I/O performed by
external libraries; it is abstracted as a build environment.  Everything
after the load is translated from the source. -/

structure ProcessContext where
  sampleRate : ℕ := 48000
  maxBlockFrames : ℕ := 256

structure BuildEnv where
  loadModel : String → Except String LoadedModel
  loadIr : String → Except String (List ℝ × ℤ)
  irMaxSamplesEnv : Option ℕ := none

inductive RNode where
  | passthrough (ty : String) (std : NodeStandardParams) : RNode
  | inputNode (std : NodeStandardParams) (trimLin : ℝ) : RNode
  | outputNode (std : NodeStandardParams) : RNode
  | overdrive (st : OverdriveState) : RNode
  | nam (st : NamState) : RNode
  | ir (B : ℕ) (st : IrState B) : RNode

structure NodeBuildResult where
  node : RNode
  warning : String := ""

/-- The NamModelNode constructor's derived gains
(signal_chain_nodes.cpp:240). -/
noncomputable def mkNamState (std : NodeStandardParams) (model : LoadedModel)
    (maxFrames : ℕ) (preGainDb postGainDb inLimit : ℝ)
    (softclip softclipTanh useInputLevel : Bool) : NamState :=
  let levelScaleLin : ℝ :=
    if useInputLevel && model.hasInputLevel then
      (10 : ℝ) ^ (((12.2 : ℝ) - model.inputLevel) / 20)
    else 1
  { std := std, maxFrames := maxFrames, model := some model,
    preLin := dbToLin preGainDb * levelScaleLin,
    postLin := dbToLin postGainDb * std.levelLin,
    lim := clampf inLimit 0.05 1.0,
    softclip := softclip, softclipTanh := softclipTanh }

/-- IR preparation: optional build-time gain (signal_chain_nodes.cpp:579). -/
noncomputable def irApplyGain (gainLin : ℝ) (mono : List ℝ) : List ℝ :=
  if gainLin ≠ 1 then mono.map (· * gainLin) else mono

/-- IR preparation: optional peak normalisation (signal_chain_nodes.cpp:586). -/
noncomputable def irNormalize (useTarget : Bool) (targetDb : ℝ) (mono : List ℝ) :
    List ℝ :=
  if useTarget then
    let peak := mono.foldl (fun p v => max p |v|) 0
    let target := dbToLin (clampf targetDb (-24) 0)
    if 0 < peak then mono.map (· * (target / peak)) else mono
  else mono

/-- The `maxSamples` / `maxMs` / env resolution (signal_chain_nodes.cpp:603). -/
noncomputable def irResolveMaxSamples (spec : NodeSpec) (ctx : ProcessContext)
    (env : BuildEnv) : ℕ :=
  let fromParam : ℕ :=
    match numParam spec "maxSamples" with
    | some v => if 0 < (v : ℝ) then (round (v : ℝ)).toNat else 0
    | none => 0
  if fromParam ≠ 0 then fromParam
  else
    let fromMs : ℕ :=
      match numParam spec "maxMs" with
      | some ms =>
          if 0 < (ms : ℝ) then (round ((ms : ℝ) / 1000 * ctx.sampleRate)).toNat else 0
      | none => 0
    if fromMs ≠ 0 then fromMs
    else env.irMaxSamplesEnv.getD 0

/-- Truncation with the 128-sample raised-cosine taper
(signal_chain_nodes.cpp:632). -/
noncomputable def irTrim (maxSamples : ℕ) (mono : List ℝ) : List ℝ × Bool :=
  if 0 < maxSamples ∧ maxSamples < mono.length then
    let taper := min 128 maxSamples
    let tapered :=
      if 1 < taper then
        let start := maxSamples - taper
        mono.mapIdx (fun i v =>
          if start ≤ i ∧ i < maxSamples then
            v * (1 / 2 * (1 + Real.cos (Real.pi * ((i - start : ℕ) : ℝ) / ((taper - 1 : ℕ) : ℝ))))
          else v)
      else mono
    (tapered.take maxSamples, true)
  else (mono, false)

/-- `buildNode` (signal_chain_nodes.cpp:412). -/
noncomputable def buildNode (env : BuildEnv) (spec : NodeSpec) (ctx : ProcessContext) :
    Except String NodeBuildResult :=
  if spec.type = "input" then
    let sp := parseStd spec
    let trimDb : ℝ := match numParam spec "inputTrimDb" with
      | some v => clampf (v : ℝ) (-24) 24
      | none => 0
    .ok { node := .inputNode sp (dbToLin trimDb) }
  else if spec.type = "output" then
    .ok { node := .outputNode (parseStd spec) }
  else if spec.type = "overdrive" then
    let sp := parseStd spec
    let drive : ℝ := match numParam spec "drive" with | some v => (v : ℝ) | none => 0.6
    let tone : ℝ := match numParam spec "tone" with | some v => (v : ℝ) | none => 0.5
    let outDb : ℝ := match numParam spec "levelDb" with | some v => (v : ℝ) | none => 0
    .ok { node := .overdrive (mkOverdrive sp drive tone outDb) }
  else if spec.type = "nam_model" then
    if !spec.enabled then
      .ok { node := .passthrough "nam_model" { parseStd spec with enabled := false } }
    else
      match spec.asset with
      | none =>
          .ok { node := .passthrough "nam_model" { parseStd spec with enabled := false },
                warning := "nam_model missing asset.path (bypassing)" }
      | some a =>
          if a.path = "" then
            .ok { node := .passthrough "nam_model" { parseStd spec with enabled := false },
                  warning := "nam_model missing asset.path (bypassing)" }
          else
            match env.loadModel a.path with
            | .error e => .error ("Failed to load NAM model: " ++ e)
            | .ok model =>
                let warn :=
                  if 0 < model.expectedSampleRate ∧
                      round model.expectedSampleRate ≠ (ctx.sampleRate : ℤ) then
                    "NAM expected sampleRate mismatch"
                  else ""
                let sp := parseStd spec
                let preGainDb : ℝ := match numParam spec "preGainDb" with
                  | some v => (v : ℝ) | none => -12
                let postGainDb : ℝ := match numParam spec "postGainDb" with
                  | some v => (v : ℝ) | none => 0
                let inLimit : ℝ := match numParam spec "inLimit" with
                  | some v => (v : ℝ) | none => 0.90
                let softclip := match spec.params.find "softclip" with
                  | some (Json.bool b) => b | _ => true
                let softclipTanh := match spec.params.find "softclipTanh" with
                  | some (Json.bool b) => b | _ => false
                let useInputLevel := match spec.params.find "useInputLevel" with
                  | some (Json.bool b) => b | _ => true
                .ok { node := .nam (mkNamState sp model ctx.maxBlockFrames preGainDb
                        postGainDb inLimit softclip softclipTanh useInputLevel),
                      warning := warn }
  else if spec.type = "ir_convolver" then
    if !spec.enabled then
      .ok { node := .passthrough "ir_convolver" { parseStd spec with enabled := false } }
    else
      match spec.asset with
      | none =>
          .ok { node := .passthrough "ir_convolver" { parseStd spec with enabled := false },
                warning := "ir_convolver missing asset.path (bypassing)" }
      | some a =>
          if a.path = "" then
            .ok { node := .passthrough "ir_convolver" { parseStd spec with enabled := false },
                  warning := "ir_convolver missing asset.path (bypassing)" }
          else
            match env.loadIr a.path with
            | .error e => .error ("Failed to load IR: " ++ e)
            | .ok (mono, irSR) =>
                if irSR ≠ (ctx.sampleRate : ℤ) then
                  .error "IR sample-rate mismatch"
                else
                  let gainDb : ℝ := match numParam spec "gainDb" with
                    | some v => (v : ℝ) | none => 0
                  let useTarget := (numParam spec "targetDb").isSome
                  let targetDb : ℝ := match numParam spec "targetDb" with
                    | some v => (v : ℝ) | none => -6
                  let mono1 := irApplyGain (dbToLin (clampf gainDb (-24) 24)) mono
                  let mono2 := irNormalize useTarget targetDb mono1
                  let maxSamples := irResolveMaxSamples spec ctx env
                  let (mono3, trimmed) := irTrim maxSamples mono2
                  if hB : ctx.maxBlockFrames ≠ 0 then
                    haveI : NeZero ctx.maxBlockFrames := ⟨hB⟩
                    match convInit ctx.maxBlockFrames mono3 with
                    | none => .error "IR convolver init failed"
                    | some conv =>
                        .ok { node := .ir ctx.maxBlockFrames
                                { std := parseStd spec, conv := conv },
                              warning := if trimmed then "IR trimmed" else "" }
                  else .error "IR convolver init failed"
  else .error ("Unknown node type: " ++ spec.type)

/-- `nodeTypeManifest` (signal_chain_nodes.cpp:669), transcribed. -/
def nodeTypeManifest : Json :=
  Json.obj
    [("version", Json.int 1),
     ("types", Json.arr
       [Json.obj [("type", Json.str "overdrive"), ("category", Json.str "fx"),
          ("params", Json.arr
            [Json.obj [("key", Json.str "enabled"), ("type", Json.str "bool"),
               ("default", Json.bool true)],
             Json.obj [("key", Json.str "mix"), ("type", Json.str "float"),
               ("min", Json.num 0), ("max", Json.num 1), ("default", Json.num 1)],
             Json.obj [("key", Json.str "levelDb"), ("type", Json.str "float"),
               ("min", Json.num (-48)), ("max", Json.num 24), ("default", Json.num 0)],
             Json.obj [("key", Json.str "drive"), ("type", Json.str "float"),
               ("min", Json.num 0), ("max", Json.num 1), ("default", Json.num (6/10))],
             Json.obj [("key", Json.str "tone"), ("type", Json.str "float"),
               ("min", Json.num 0), ("max", Json.num 1), ("default", Json.num (5/10))]])],
        Json.obj [("type", Json.str "nam_model"), ("category", Json.str "amp"),
          ("asset", Json.obj [("required", Json.bool true), ("kind", Json.str "nam_model")]),
          ("params", Json.arr
            [Json.obj [("key", Json.str "enabled"), ("type", Json.str "bool"),
               ("default", Json.bool true)],
             Json.obj [("key", Json.str "mix"), ("type", Json.str "float"),
               ("min", Json.num 0), ("max", Json.num 1), ("default", Json.num 1)],
             Json.obj [("key", Json.str "levelDb"), ("type", Json.str "float"),
               ("min", Json.num (-48)), ("max", Json.num 24), ("default", Json.num 0)],
             Json.obj [("key", Json.str "preGainDb"), ("type", Json.str "float"),
               ("min", Json.num (-24)), ("max", Json.num 24), ("default", Json.num (-12))],
             Json.obj [("key", Json.str "postGainDb"), ("type", Json.str "float"),
               ("min", Json.num (-24)), ("max", Json.num 24), ("default", Json.num 0)],
             Json.obj [("key", Json.str "inLimit"), ("type", Json.str "float"),
               ("min", Json.num (5/100)), ("max", Json.num 1), ("default", Json.num (90/100))],
             Json.obj [("key", Json.str "softclip"), ("type", Json.str "bool"),
               ("default", Json.bool true)],
             Json.obj [("key", Json.str "softclipTanh"), ("type", Json.str "bool"),
               ("default", Json.bool false)],
             Json.obj [("key", Json.str "useInputLevel"), ("type", Json.str "bool"),
               ("default", Json.bool true)]])],
        Json.obj [("type", Json.str "ir_convolver"), ("category", Json.str "cab"),
          ("asset", Json.obj [("required", Json.bool true), ("kind", Json.str "ir_wav")]),
          ("params", Json.arr
            [Json.obj [("key", Json.str "enabled"), ("type", Json.str "bool"),
               ("default", Json.bool true)],
             Json.obj [("key", Json.str "mix"), ("type", Json.str "float"),
               ("min", Json.num 0), ("max", Json.num 1), ("default", Json.num 1)],
             Json.obj [("key", Json.str "levelDb"), ("type", Json.str "float"),
               ("min", Json.num (-48)), ("max", Json.num 24), ("default", Json.num 0)],
             Json.obj [("key", Json.str "gainDb"), ("type", Json.str "float"),
               ("min", Json.num (-24)), ("max", Json.num 24), ("default", Json.num 0)],
             Json.obj [("key", Json.str "targetDb"), ("type", Json.str "float"),
               ("min", Json.num (-24)), ("max", Json.num 0), ("default", Json.num (-6))],
             Json.obj [("key", Json.str "maxSamples"), ("type", Json.str "float"),
               ("min", Json.num 0), ("max", Json.num 192000), ("default", Json.num 0)],
             Json.obj [("key", Json.str "maxMs"), ("type", Json.str "float"),
               ("min", Json.num 0), ("max", Json.num 500), ("default", Json.num 0)]])],
        Json.obj [("type", Json.str "input"), ("category", Json.str "utility")],
        Json.obj [("type", Json.str "output"), ("category", Json.str "utility")]])]

/-- The parameter keys the manifest lists for each node type. -/
def manifestParamKeys (m : Json) : List (String × List String) :=
  ((m.find "types").getD Json.null).items.map (fun t =>
    (((t.find "type").getD Json.null).asString,
     ((t.find "params").getD Json.null).items.map (fun p =>
        ((p.find "key").getD Json.null).asString)))

/-- C10: `parseStd` (used by every buildNode branch) recognises the
undocumented numeric `outputGainDb`, which overrides any `levelDb` value as
the node's post-gain (clamped to [−48, 24] dB); the key is listed for no
node type in the `list_types` manifest. -/
theorem outputGainDb_overrides_levelDb (spec : NodeSpec) (v : Json)
    (hfind : spec.params.find "outputGainDb" = some v) (hnum : v.isNumber = true) :
    (parseStd spec).levelDb = clampf (v.asNum : ℝ) (-48) 24 ∧
    (parseStd spec).levelLin = dbToLin (clampf (v.asNum : ℝ) (-48) 24) ∧
    ∀ e ∈ manifestParamKeys nodeTypeManifest, "outputGainDb" ∉ e.2 := by
  refine ⟨?_, ?_, by decide⟩ <;>
    simp [parseStd, numParam, hfind, hnum]

theorem outputGainDb_overrides_levelDb_witness :
    (NodeSpec.params { params := Json.obj [("levelDb", Json.num 3),
        ("outputGainDb", Json.num 30)] }).find "outputGainDb" = some (Json.num 30) ∧
    (Json.num 30).isNumber = true ∧
    ((parseStd { params := Json.obj [("levelDb", Json.num 3), ("outputGainDb", Json.num 30)] }).levelDb =
        clampf ((Json.num 30).asNum : ℝ) (-48) 24 ∧
     (parseStd { params := Json.obj [("levelDb", Json.num 3), ("outputGainDb", Json.num 30)] }).levelLin =
        dbToLin (clampf ((Json.num 30).asNum : ℝ) (-48) 24) ∧
     ∀ e ∈ manifestParamKeys nodeTypeManifest, "outputGainDb" ∉ e.2) :=
  ⟨rfl, rfl, outputGainDb_overrides_levelDb _ _ rfl rfl⟩

/-! ### C6: overdrive node processing -/

/-- Modelled from the claim's words: hard clamp to ±1 **then** the cubic
shape x − ⅓x³ (so saturated inputs would give magnitude 2/3). -/
noncomputable def softclipSpec (x : ℝ) : ℝ :=
  clampf x (-1) 1 - 1 / 3 * (clampf x (-1) 1 * clampf x (-1) 1 * clampf x (-1) 1)

def odSpecSat : NodeSpec :=
  { type := "overdrive",
    params := Json.obj [("drive", Json.num 1), ("tone", Json.num 1)] }

def odSpec24 : NodeSpec :=
  { type := "overdrive", params := Json.obj [("levelDb", Json.num 24)] }

lemma dbToLin_zero : dbToLin 0 = 1 := by
  unfold dbToLin
  norm_num

lemma one_lt_dbToLin_24 : 1 < dbToLin 24 := by
  unfold dbToLin
  rw [show ((24 : ℝ) / 20) = (6 / 5 : ℝ) by norm_num]
  rw [show (1 : ℝ) = (10 : ℝ) ^ (0 : ℝ) by rw [Real.rpow_zero]]
  exact Real.rpow_lt_rpow_left_iff (by norm_num) |>.mpr (by norm_num)

/-- C6 counterexample: (a) the code's softclip returns 1 at a saturated
input where the claim's clamp-then-shape gives 2/3, and the built overdrive
node (drive=1, tone=1) maps the sample 1 to 1, not 2/3; (b) the post gain
applies levelDb twice (`dbToLin 24 · dbToLin 24`), not once as claimed. -/
theorem overdrive_claim_counterexample :
    softclipFast 21 = 1 ∧ softclipSpec 21 = 2 / 3 ∧ softclipFast 21 ≠ softclipSpec 21 ∧
    (overdriveProcess (mkOverdrive {} 1 1 0) [1]).1 = [1] ∧
    (mkOverdrive (parseStd odSpec24) 0 1 24).postLin = dbToLin 24 * dbToLin 24 ∧
    dbToLin 24 * dbToLin 24 ≠ dbToLin 24 := by
  have h1 : softclipFast 21 = 1 := by norm_num [softclipFast]
  have h2 : softclipSpec 21 = 2 / 3 := by norm_num [softclipSpec, clampf]
  have hgt := one_lt_dbToLin_24
  refine ⟨h1, h2, by rw [h1, h2]; norm_num, ?_, ?_, ?_⟩
  · unfold overdriveProcess
    rw [if_neg (by simp [mkOverdrive])]
    norm_num [odRun, odStep, mkOverdrive, clampf, softclipFast, dbToLin_zero]
  · have e1 : numParam odSpec24 "outputGainDb" = none := rfl
    have e2 : numParam odSpec24 "levelDb" = some 24 := rfl
    have e3 : numParam odSpec24 "mix" = none := rfl
    unfold mkOverdrive parseStd
    rw [e1, e2, e3]
    norm_num [clampf]
  · intro h
    nlinarith

/-- Overdrive one-pole filter state before sample i, started at z. -/
noncomputable def odZfrom (st : OverdriveState) (z : ℝ) (input : List ℝ) : ℕ → ℝ
  | 0 => z
  | i + 1 => odZfrom st z input i +
      st.a * (softclipFast (input.getD i 0 * st.pre) - odZfrom st z input i)

lemma odZfrom_cons (st : OverdriveState) (z x : ℝ) (xs : List ℝ) :
    ∀ i, odZfrom st z (x :: xs) (i + 1) =
      odZfrom st (z + st.a * (softclipFast (x * st.pre) - z)) xs i := by
  intro i
  induction i with
  | zero => rfl
  | succ i ih =>
      show odZfrom st z (x :: xs) (i + 1) + _ = _
      rw [ih]
      rfl

lemma odRun_getD (st : OverdriveState) :
    ∀ (input : List ℝ) (z : ℝ),
      (odRun st z input).1.length = input.length ∧
      ∀ i, i < input.length →
        (odRun st z input).1.getD i 0 =
          input.getD i 0 * st.std.mixDry +
            ((odZfrom st z input (i + 1)) * st.toneInv +
              softclipFast (input.getD i 0 * st.pre) * st.tone) * st.postLin *
              st.std.mixWet := by
  intro input
  induction input with
  | nil => intro z; exact ⟨rfl, by intro i hi; simp at hi⟩
  | cons x xs ih =>
      intro z
      constructor
      · show ((odStep st z x).1 :: (odRun st (odStep st z x).2 xs).1).length =
          (x :: xs).length
        rw [List.length_cons, List.length_cons, (ih (odStep st z x).2).1]
      · intro i hi
        rcases i with _ | i
        · show (odStep st z x).1 = _
          simp only [odStep, odZfrom, List.getD_cons_zero]
        · show ((odStep st z x).1 :: (odRun st (odStep st z x).2 xs).1).getD (i + 1) 0 = _
          rw [List.getD_cons_succ]
          rw [(ih (odStep st z x).2).2 i (by simpa using hi)]
          rw [odZfrom_cons]
          rfl

/-- C6 (amended): the built overdrive node clamps drive and tone to [0,1],
uses preGain = 1 + drive*20, saturates |x| > 1 at the clamp value (not the
shaped 2/3) and otherwise shapes x - 0.3333333*x^3, filters through the
one-pole with a = 0.02 + (1-tone)*0.2, crossfades filtered and shaped by
tone, scales by the post gain dbToLin(levelDb)*dbToLin(clamped levelDb)
(levelDb enters twice: once as the constructor outDb, once via the standard
levelLin), and emits the wet/dry mix; disabled nodes pass through. -/
theorem overdrive_process_characterization
    (std : NodeStandardParams) (drive tone outDb : ℝ) (input : List ℝ) :
    (mkOverdrive std drive tone outDb).drive = clampf drive 0 1 ∧
    (mkOverdrive std drive tone outDb).pre = 1 + clampf drive 0 1 * 20 ∧
    (mkOverdrive std drive tone outDb).a = 0.02 + (1 - clampf tone 0 1) * 0.2 ∧
    (mkOverdrive std drive tone outDb).postLin = dbToLin outDb * std.levelLin ∧
    (std.enabled = false →
       (overdriveProcess (mkOverdrive std drive tone outDb) input).1 = input) ∧
    (std.enabled = true →
       (overdriveProcess (mkOverdrive std drive tone outDb) input).1.length = input.length ∧
       ∀ i, i < input.length →
         (overdriveProcess (mkOverdrive std drive tone outDb) input).1.getD i 0 =
           input.getD i 0 * std.mixDry +
             ((odZfrom (mkOverdrive std drive tone outDb) 0 input (i + 1)) *
                  (1 - clampf tone 0 1) +
                softclipFast (input.getD i 0 * (1 + clampf drive 0 1 * 20)) *
                  clampf tone 0 1) *
               (dbToLin outDb * std.levelLin) * std.mixWet) := by
  refine ⟨rfl, rfl, rfl, rfl, ?_, ?_⟩
  · intro hdis
    unfold overdriveProcess
    rw [if_pos (by simp [mkOverdrive, hdis])]
  · intro hen
    have hrun := odRun_getD (mkOverdrive std drive tone outDb) input 0
    have hproc : (overdriveProcess (mkOverdrive std drive tone outDb) input).1 =
        (odRun (mkOverdrive std drive tone outDb) 0 input).1 := by
      unfold overdriveProcess
      rw [if_neg (by simp [mkOverdrive, hen])]
      rfl
    rw [hproc]
    exact ⟨hrun.1, fun i hi => hrun.2 i hi⟩


theorem overdrive_process_characterization_witness :
    ({} : NodeStandardParams).enabled = true ∧
    (overdriveProcess (mkOverdrive {} 1 1 0) [(1 : ℝ)]).1.getD 0 0 =
      ([(1 : ℝ)] : List ℝ).getD 0 0 * ({} : NodeStandardParams).mixDry +
        ((odZfrom (mkOverdrive {} 1 1 0) 0 [(1 : ℝ)] (0 + 1)) * (1 - clampf 1 0 1) +
          softclipFast (([(1 : ℝ)] : List ℝ).getD 0 0 * (1 + clampf 1 0 1 * 20)) *
            clampf 1 0 1) *
          (dbToLin 0 * ({} : NodeStandardParams).levelLin) *
          ({} : NodeStandardParams).mixWet :=
  ⟨rfl, ((overdrive_process_characterization {} 1 1 0 [(1 : ℝ)]).2.2.2.2.2 rfl).2 0
    (by norm_num)⟩

/-! ### C7: overflow-tail behaviour of the runtime nodes -/

def envEmpty : BuildEnv :=
  { loadModel := fun _ => .error "no model", loadIr := fun _ => .error "no ir" }

def odSpecTail : NodeSpec :=
  { type := "overdrive",
    params := Json.obj [("drive", Json.num 1), ("tone", Json.num 1)] }

/-- C7 counterexample: an overdrive node built with maxBlockFrames = 1,
driven with n = 2 > 1 samples, transforms the overflow sample instead of
passing it through: with drive=1 (preGain 21) the tail input 1/2 produces
output 1 ≠ 1/2. -/
theorem overflow_tail_counterexample :
    buildNode envEmpty odSpecTail { sampleRate := 48000, maxBlockFrames := 1 } =
      .ok { node := RNode.overdrive (mkOverdrive (parseStd odSpecTail)
              ((1 : ℚ) : ℝ) ((1 : ℚ) : ℝ) 0) } ∧
    (overdriveProcess (mkOverdrive (parseStd odSpecTail)
        ((1 : ℚ) : ℝ) ((1 : ℚ) : ℝ) 0) [1 / 2, 1 / 2]).1.getD 1 0 = 1 ∧
    ([(1 : ℝ) / 2, 1 / 2].getD 1 0 = 1 / 2) ∧ ((1 : ℝ) ≠ 1 / 2) := by
  refine ⟨rfl, ?_, rfl, by norm_num⟩
  have e1 : numParam odSpecTail "outputGainDb" = none := rfl
  have e2 : numParam odSpecTail "levelDb" = none := rfl
  have e3 : numParam odSpecTail "mix" = none := rfl
  have hstd : parseStd odSpecTail = ({} : NodeStandardParams) := by
    unfold parseStd
    rw [e1, e2, e3]
    norm_num [clampf, dbToLin_zero, odSpecTail]
  rw [hstd]
  have hq : ((1 : ℚ) : ℝ) = 1 := by norm_num
  rw [hq]
  unfold overdriveProcess
  rw [if_neg (by simp [mkOverdrive])]
  norm_num [odRun, odStep, mkOverdrive, clampf, softclipFast, dbToLin_zero]

lemma tail_append_getD (front input : List ℝ) (frames i : ℕ)
    (hlen : front.length = frames) (h1 : frames ≤ i) :
    (front ++ input.drop frames).getD i 0 = input.getD i 0 := by
  rw [List.getD_eq_getElem?_getD, List.getD_eq_getElem?_getD]
  rw [List.getElem?_append_right (by omega)]
  rw [List.getElem?_drop, hlen]
  congr 2
  omega

/-- C7 (amended): the overflow-tail passthrough holds for the two node
types with construction-time internal buffers, `nam_model` and
`ir_convolver` (for every parameterisation, hence for every node buildNode
produces): samples at index ≥ min(n, maxFrames) are copied through.  The
other node types (input, output, overdrive, disabled passthrough) apply
their per-sample formula to the whole range instead (see the C7
counterexample). -/
theorem nam_ir_overflow_tail_passthrough
    (stN : NamState) (B : ℕ) [NeZero B] (stI : IrState B) (input : List ℝ) :
    (∀ i, min input.length stN.maxFrames ≤ i → i < input.length →
        (namProcess stN input).getD i 0 = input.getD i 0) ∧
    (∀ i, min input.length B ≤ i → i < input.length →
        ((irNodeProcess stI input).1).getD i 0 = input.getD i 0) := by
  constructor
  · intro i h1 h2
    unfold namProcess
    by_cases hguard : (!stN.std.enabled || stN.model.isNone) = true
    · rw [if_pos hguard]
    · rw [if_neg hguard]
      rcases hm : stN.model with _ | m
      · rw [hm] at hguard
      · dsimp only
        apply tail_append_getD
        · rw [List.length_map, List.length_range]
        · exact h1
  · intro i h1 h2
    unfold irNodeProcess
    by_cases hguard : (!stI.std.enabled || !stI.conv.ready) = true
    · rw [if_pos hguard]
    · rw [if_neg hguard]
      dsimp only
      rcases hpb : processBlock stI.conv (fun j => input.getD j 0)
          (min input.length B) with _ | p
      · dsimp only
        apply tail_append_getD
        · rw [List.length_map, List.length_range]
        · exact h1
      · obtain ⟨outBuf, conv2⟩ := p
        dsimp only
        apply tail_append_getD
        · rw [List.length_map, List.length_range]
        · exact h1

def stN0 : NamState :=
  { std := {}, maxFrames := 1, model := none, preLin := 1, postLin := 1,
    lim := 1, softclip := true, softclipTanh := false }

noncomputable def stI0 : IrState 1 := { std := {}, conv := initConvState 1 [] }

theorem nam_ir_overflow_tail_passthrough_witness :
    (min ([(1 : ℝ) / 2, 1 / 2].length) stN0.maxFrames ≤ 1 ∧ 1 < [(1 : ℝ) / 2, 1 / 2].length ∧
      (namProcess stN0 [(1 : ℝ) / 2, 1 / 2]).getD 1 0 = [(1 : ℝ) / 2, 1 / 2].getD 1 0) ∧
    (min ([(1 : ℝ) / 2, 1 / 2].length) 1 ≤ 1 ∧
      ((irNodeProcess stI0 [(1 : ℝ) / 2, 1 / 2]).1).getD 1 0 = [(1 : ℝ) / 2, 1 / 2].getD 1 0) :=
  ⟨⟨by simp [stN0], by simp,
    (nam_ir_overflow_tail_passthrough stN0 1 stI0 [(1 : ℝ) / 2, 1 / 2]).1 1
      (by simp [stN0]) (by simp)⟩,
   ⟨by simp,
    (nam_ir_overflow_tail_passthrough stN0 1 stI0 [(1 : ℝ) / 2, 1 / 2]).2 1
      (by simp) (by simp)⟩⟩

/-! ### Control server (chain_control_server.cpp)

Socket I/O and disk persistence are external; the request handler's logic
is embedded, with `persistChainToDisk` abstracted as an environment oracle
(its success/failure drives the handler's behaviour). -/

/-- `buildChain` (signal_chain.cpp:139): builds every node, concatenating
non-fatal warnings with a newline. -/
noncomputable def buildChainNodes (env : BuildEnv) (ctx : ProcessContext) :
    List NodeSpec → Except String (List RNode × String)
  | [] => .ok ([], "")
  | ns :: rest =>
      match buildNode env ns ctx with
      | .error e =>
          .error ("Failed to build node '" ++ ns.id ++ "' (" ++ ns.type ++ "): " ++ e)
      | .ok r =>
          match buildChainNodes env ctx rest with
          | .error e => .error e
          | .ok (nodes, ws) =>
              let ws' := if r.warning = "" then ws
                         else if ws = "" then r.warning else r.warning ++ "\n" ++ ws
              .ok (r.node :: nodes, ws')

structure SignalChainR where
  spec : ChainSpec
  nodes : List RNode
  ctx : ProcessContext

noncomputable def buildChain (env : BuildEnv) (spec : ChainSpec) (ctx : ProcessContext) :
    Except String (SignalChainR × String) :=
  match buildChainNodes env ctx spec.chain with
  | .error e => .error e
  | .ok (nodes, warning) =>
      .ok ({ spec := spec, nodes := nodes, ctx := ctx }, warning)

/-- `chainSpecToJson` (signal_chain_schema.cpp:328); member order is
insertion order here (nlohmann orders keys alphabetically on
serialisation, which no claim depends on). -/
def nodeSpecToJson (n : NodeSpec) : Json :=
  Json.obj
    ([("id", Json.str n.id), ("type", Json.str n.type)] ++
     (if n.category ≠ "" then [("category", Json.str n.category)] else []) ++
     [("enabled", Json.bool n.enabled),
      ("params", if n.params.isObject then n.params else Json.obj [])] ++
     (match n.asset with
      | some a => [("asset", Json.obj [("path", Json.str a.path)])]
      | none => []))

def chainSpecToJson (spec : ChainSpec) : Json :=
  Json.obj
    [("version", Json.int spec.version),
     ("sampleRate", Json.int spec.sampleRate),
     ("chain", Json.arr (spec.chain.map nodeSpecToJson))]

structure ChainRuntimeState where
  activeChain : Option SignalChainR := none
  pendingChain : Option SignalChainR := none
  lastSpec : ChainSpec := {}
  ctx : ProcessContext := {}
  configPath : String := "/opt/pedal/config/chain.json"

structure ServerEnv where
  build : BuildEnv
  persist : String → ChainSpec → Except String Unit

def errResp (msg : String) : Json :=
  Json.obj [("ok", Json.bool false), ("error", Json.str msg)]

/-- `handleRequest` (chain_control_server.cpp:117).  `set_chain` mutates the
state only after validation, build and persistence all succeed; the
release-store of the built chain into `pending` is the `pendingChain`
update. -/
noncomputable def handleRequest (env : ServerEnv) (st : ChainRuntimeState)
    (req : Json) : Json × ChainRuntimeState :=
  if !req.isObject then (errResp "request must be an object", st)
  else
    match req.find "cmd" with
    | some (Json.str cmd) =>
        if cmd = "list_types" then
          (Json.obj [("ok", Json.bool true), ("types", nodeTypeManifest)], st)
        else if cmd = "get_chain" then
          match st.activeChain with
          | none => (errResp "no active chain", st)
          | some current =>
              (Json.obj [("ok", Json.bool true), ("chain", chainSpecToJson current.spec)], st)
        else if cmd = "set_chain" then
          match req.find "chain" with
          | none => (errResp "missing chain", st)
          | some chainJson =>
              match parseChainJson chainJson with
              | .error e => (errResp e, st)
              | .ok parsed0 =>
                  match validateChainSpec { parsed0 with sampleRate := st.ctx.sampleRate } with
                  | .error e => (errResp e, st)
                  | .ok validated =>
                      match buildChain env.build validated st.ctx with
                      | .error e => (errResp e, st)
                      | .ok (chain, warning) =>
                          match env.persist st.configPath validated with
                          | .error pe => (errResp ("persist failed: " ++ pe), st)
                          | .ok _ =>
                              ((if warning ≠ "" then
                                  Json.obj [("ok", Json.bool true), ("warning", Json.str warning)]
                                else Json.obj [("ok", Json.bool true)]),
                               { st with lastSpec := validated,
                                         pendingChain := some chain })
        else (errResp "unknown cmd", st)
    | _ => (errResp "missing string cmd", st)

def setChainReq (payload : Json) : Json :=
  Json.obj [("cmd", Json.str "set_chain"), ("chain", payload)]

/-- The parse/validate stage as the handler performs it (the parsed spec's
sampleRate is overwritten with the engine's before validation). -/
def parseValidateFor (st : ChainRuntimeState) (payload : Json) : Except String ChainSpec :=
  match parseChainJson payload with
  | .error e => .error e
  | .ok parsed0 => validateChainSpec { parsed0 with sampleRate := st.ctx.sampleRate }

/-- C5: set_chain mutates neither `active` nor `pending` (nor anything
else) on any failure, and on success stores exactly the built chain into
`pending` (leaving `active` untouched), returning ok with an optional
warning. -/
theorem set_chain_atomicity (env : ServerEnv) (st : ChainRuntimeState) (payload : Json) :
    ((handleRequest env st (setChainReq payload)).1.find "ok" = some (Json.bool true) ∨
     ((handleRequest env st (setChainReq payload)).1.find "ok" = some (Json.bool false) ∧
      ∃ e, (handleRequest env st (setChainReq payload)).1.find "error" = some (Json.str e))) ∧
    ((handleRequest env st (setChainReq payload)).1.find "ok" = some (Json.bool false) →
      (handleRequest env st (setChainReq payload)).2 = st) ∧
    ((handleRequest env st (setChainReq payload)).1.find "ok" = some (Json.bool true) →
      ∃ validated chain warning,
        parseValidateFor st payload = .ok validated ∧
        buildChain env.build validated st.ctx = .ok (chain, warning) ∧
        env.persist st.configPath validated = .ok () ∧
        (handleRequest env st (setChainReq payload)).2 =
          { st with lastSpec := validated, pendingChain := some chain }) := by
  have hred : handleRequest env st (setChainReq payload) =
      (match parseValidateFor st payload with
       | .error e => (errResp e, st)
       | .ok validated =>
           match buildChain env.build validated st.ctx with
           | .error e => (errResp e, st)
           | .ok (chain, warning) =>
               match env.persist st.configPath validated with
               | .error pe => (errResp ("persist failed: " ++ pe), st)
               | .ok _ =>
                   ((if warning ≠ "" then
                       Json.obj [("ok", Json.bool true), ("warning", Json.str warning)]
                     else Json.obj [("ok", Json.bool true)]),
                    { st with lastSpec := validated, pendingChain := some chain })) := by
    unfold parseValidateFor
    rcases h : parseChainJson payload with e | p0 <;>
      simp [handleRequest, setChainReq, Json.find, Json.isObject, List.lookup, h]
  rw [hred]
  rcases hpv : parseValidateFor st payload with e | validated
  · refine ⟨Or.inr ⟨rfl, e, rfl⟩, fun _ => rfl, fun hok => ?_⟩
    injection hok with h2
    injection h2 with h3
    cases h3
  · dsimp only
    rcases hb : buildChain env.build validated st.ctx with e | p
    · refine ⟨Or.inr ⟨rfl, e, rfl⟩, fun _ => rfl, fun hok => ?_⟩
      injection hok with h2
      injection h2 with h3
      cases h3
    · obtain ⟨chain, warning⟩ := p
      dsimp only
      rcases hpe : env.persist st.configPath validated with e | u
      · refine ⟨Or.inr ⟨rfl, _, rfl⟩, fun _ => rfl, fun hok => ?_⟩
        injection hok with h2
        injection h2 with h3
        cases h3
      · cases u
        dsimp only
        by_cases hw : warning ≠ ""
        · rw [if_pos hw]
          refine ⟨Or.inl rfl, fun hok => ?_, fun _ =>
            ⟨validated, chain, warning, rfl, hb, hpe, rfl⟩⟩
          injection hok with h2
          injection h2 with h3
          cases h3
        · rw [if_neg hw]
          refine ⟨Or.inl rfl, fun hok => ?_, fun _ =>
            ⟨validated, chain, warning, rfl, hb, hpe, rfl⟩⟩
          injection hok with h2
          injection h2 with h3
          cases h3

def srvEnvOk : ServerEnv :=
  { build := envEmpty, persist := fun _ _ => .ok () }

def st0 : ChainRuntimeState := {}

def goodPayload : Json := chainSpecToJson sampleChainSpec

theorem set_chain_atomicity_witness :
    ((handleRequest srvEnvOk st0 (setChainReq goodPayload)).1.find "ok" =
        some (Json.bool true) →
      ∃ validated chain warning,
        parseValidateFor st0 goodPayload = .ok validated ∧
        buildChain srvEnvOk.build validated st0.ctx = .ok (chain, warning) ∧
        srvEnvOk.persist st0.configPath validated = .ok () ∧
        (handleRequest srvEnvOk st0 (setChainReq goodPayload)).2 =
          { st0 with lastSpec := validated, pendingChain := some chain }) ∧
    (handleRequest srvEnvOk st0 (setChainReq goodPayload)).1.find "ok" =
      some (Json.bool true) :=
  ⟨(set_chain_atomicity srvEnvOk st0 goodPayload).2.2, by rfl⟩

/-- C9: `get_chain` reads `activeChain`, not the last accepted spec: on a
state with no active chain, a successful `set_chain` (which stores the
accepted spec in `lastSpec` and the built chain in `pendingChain`) is
followed by a `get_chain` that answers "no active chain" instead of the
spec just accepted. -/
theorem get_chain_ignores_last_accepted :
    (handleRequest srvEnvOk st0 (setChainReq goodPayload)).1.find "ok" =
      some (Json.bool true) ∧
    (handleRequest srvEnvOk st0 (setChainReq goodPayload)).2.lastSpec =
      sampleChainSpec ∧
    (handleRequest srvEnvOk
        (handleRequest srvEnvOk st0 (setChainReq goodPayload)).2
        (Json.obj [("cmd", Json.str "get_chain")])).1 =
      errResp "no active chain" :=
  ⟨rfl, rfl, rfl⟩

/-! ### C4: audio-thread swap coalescing (main_alsa.cpp)

Chains are identified by naturals; the single pending cell, the
deferred-swap and deferred-retire handles, the 128-slot retire ring
(write/read indices abstracted to a list of unretired entries) and the
swap counter are the state.  `dropped` and `installed` are ghost logs:
a chain enters `dropped` when its last reference is overwritten without
going through the retire queue, and `installed` when it becomes the
active chain.  The ramp-disabled (`swapRampSamples = 0`) immediate-swap
path is modelled. -/

def kRetireQueueSize : ℕ := 128

structure SwapState where
  active : Option ℕ := none
  pendingCell : Option ℕ := none
  deferredSwap : Option ℕ := none
  deferredRetire : Option ℕ := none
  retireQueue : List ℕ := []
  swapCount : ℕ := 0
  dropped : List ℕ := []
  installed : List ℕ := []
deriving Repr, DecidableEq

/-- Control-thread publish (the release store into `pendingChain`,
chain_control_server.cpp:167): overwrites the cell; a chain still in the
cell is freed, not retired. -/
def publish (s : SwapState) (c : ℕ) : SwapState :=
  { s with pendingCell := some c,
           dropped := s.dropped ++ s.pendingCell.toList }

/-- `deferredRetire = std::move(old); retireChainFromAudioThread(deferredRetire)`
(main_alsa.cpp:293): enqueue when the ring has space, else keep the chain
alive in `deferredRetire` for a later retry. -/
def tryRetire (s : SwapState) (old : Option ℕ) : SwapState :=
  match old with
  | none => { s with deferredRetire := none }
  | some c =>
      if s.retireQueue.length < kRetireQueueSize then
        { s with retireQueue := s.retireQueue ++ [c], deferredRetire := none }
      else { s with deferredRetire := some c }

/-- Pending pick-up (main_alsa.cpp:1690): take the deferred-swap handle if
held, still exchanging the cell for anything newer (the overwritten
deferred handle is freed); otherwise atomic-exchange the cell with empty. -/
def pickup (s : SwapState) : Option ℕ × SwapState :=
  match s.deferredSwap with
  | some d =>
      match s.pendingCell with
      | some newer =>
          (some newer, { s with pendingCell := none, deferredSwap := some newer,
                                dropped := s.dropped ++ [d] })
      | none => (some d, s)
  | none => (s.pendingCell, { s with pendingCell := none })

/-- The coalescing drain loop (main_alsa.cpp:1714): repeated exchange until
the cell is empty, keeping only the newest (the cell is a single slot, so
one more exchange empties it); an overwritten `pending` is freed. -/
def drain (p : Option ℕ) (s : SwapState) : Option ℕ × SwapState :=
  match p with
  | none => (none, s)
  | some c =>
      match s.pendingCell with
      | some newer => (some newer, { s with pendingCell := none, dropped := s.dropped ++ [c] })
      | none => (some c, s)

/-- The install step (main_alsa.cpp:1730, ramp-disabled path):
`canSwapNow = !active || (!deferredRetire && queueHasSpace)`; when it
fails the chain is parked in `deferredSwap`; otherwise the old active is
moved to `deferredRetire` and retirement is attempted at once.  (If
`active` is empty while `deferredRetire` holds a chain, the assignment
`deferredRetire = std::move(old)` overwrites and frees it.) -/
def installStep (p : Option ℕ) (s : SwapState) : SwapState :=
  match p with
  | none => s
  | some c =>
      if s.active.isNone ∨ (s.deferredRetire = none ∧
          s.retireQueue.length < kRetireQueueSize) then
        tryRetire
          { s with deferredSwap := none, active := some c,
                   installed := s.installed ++ [c],
                   swapCount := s.swapCount + 1,
                   dropped := s.dropped ++
                     (match s.active, s.deferredRetire with
                      | none, some d => [d]
                      | _, _ => []) }
          s.active
      else { s with deferredSwap := some c }

/-- One audio-period boundary (main_alsa.cpp:1579 retry, then 1690
pick-up, 1714 drain, 1730 install). -/
def boundary (s : SwapState) : SwapState :=
  let s1 := tryRetire s s.deferredRetire
  let ps2 := pickup s1
  let ps3 := drain ps2.1 ps2.2
  installStep ps3.1 ps3.2

/-- A burst of publishes between two boundaries, then the boundary. -/
def burstResult (a n : ℕ) (cs : List ℕ) : SwapState :=
  boundary (cs.foldl publish { active := some a, swapCount := n })

theorem foldl_publish (cs : List ℕ) (s : SwapState) (hne : cs ≠ []) :
    cs.foldl publish s =
      { s with pendingCell := some (cs.getLast hne),
               dropped := s.dropped ++ s.pendingCell.toList ++ cs.dropLast } := by
  induction cs generalizing s with
  | nil => exact absurd rfl hne
  | cons c rest ih =>
      cases rest with
      | nil => simp [publish]
      | cons c2 rest2 =>
          rw [List.foldl_cons, ih (publish s c) (by simp)]
          simp [publish, List.getLast]

theorem mem_dropLast_ne_getLast {cs : List ℕ} (hnd : cs.Nodup) (hne : cs ≠ [])
    {c : ℕ} (hc : c ∈ cs.dropLast) : c ≠ cs.getLast hne := by
  intro h
  have hsplit := List.dropLast_append_getLast hne
  rw [← hsplit, List.nodup_append] at hnd
  exact hnd.2.2 hc (by simp [h])

/-- C4 counterexample: with chain 0 active, publishing chains 1 then 2
before the next boundary installs only 2 and retires only 0; chain 1 is
never sent to retirement — it is freed when overwritten in the pending
cell — contradicting the claim that every earlier pending chain is sent
to retirement. -/
theorem pending_overwrite_drop_counterexample :
    (burstResult 0 5 [1, 2]).active = some 2 ∧
    (burstResult 0 5 [1, 2]).swapCount = 6 ∧
    (burstResult 0 5 [1, 2]).retireQueue = [0] ∧
    1 ∉ (burstResult 0 5 [1, 2]).retireQueue ∧
    1 ∉ (burstResult 0 5 [1, 2]).installed ∧
    1 ∈ (burstResult 0 5 [1, 2]).dropped := by decide

/-- C4 (amended): for a burst `cs` of chains published into the pending
cell between two boundaries (chain `a` active, empty ring, no deferred
handles), the boundary installs only the last of `cs`, increments the
swap counter by exactly one, and sends only the previously active `a` to
the retire ring; every earlier chain of the burst is freed (dropped) when
overwritten, not retired, and — when the burst has no duplicates — is
never installed. -/
theorem swap_coalescing (a n : ℕ) (cs : List ℕ) (hne : cs ≠ []) :
    (burstResult a n cs).active = some (cs.getLast hne) ∧
    (burstResult a n cs).swapCount = n + 1 ∧
    (burstResult a n cs).retireQueue = [a] ∧
    (burstResult a n cs).installed = [cs.getLast hne] ∧
    (burstResult a n cs).dropped = cs.dropLast ∧
    (burstResult a n cs).pendingCell = none ∧
    (burstResult a n cs).deferredSwap = none ∧
    (burstResult a n cs).deferredRetire = none ∧
    (cs.Nodup → ∀ c ∈ cs.dropLast, c ∉ (burstResult a n cs).installed) := by
  have hburst : burstResult a n cs =
      installStep (some (cs.getLast hne))
        { active := some a, swapCount := n, pendingCell := none,
          dropped := cs.dropLast } := by
    rw [burstResult, foldl_publish cs _ hne]
    rfl
  rw [hburst]
  have hred : installStep (some (cs.getLast hne))
      { active := some a, swapCount := n, pendingCell := none,
        dropped := cs.dropLast } =
      { active := some (cs.getLast hne), pendingCell := none,
        deferredSwap := none, deferredRetire := none,
        retireQueue := [a], swapCount := n + 1,
        dropped := cs.dropLast, installed := [cs.getLast hne] } := by
    simp [installStep, tryRetire, kRetireQueueSize]
  rw [hred]
  refine ⟨rfl, rfl, rfl, rfl, rfl, rfl, rfl, rfl, ?_⟩
  intro hnd c hc
  simp only [List.mem_singleton]
  exact mem_dropLast_ne_getLast hnd hne hc

theorem swap_coalescing_witness :
    ([1, 2] : List ℕ) ≠ [] ∧
    (burstResult 0 0 [1, 2]).active = some 2 ∧
    (burstResult 0 0 [1, 2]).swapCount = 1 ∧
    (burstResult 0 0 [1, 2]).retireQueue = [0] ∧
    (burstResult 0 0 [1, 2]).installed = [2] ∧
    (burstResult 0 0 [1, 2]).dropped = [1] := by
  obtain ⟨h1, h2, h3, h4, h5, -⟩ := swap_coalescing 0 0 [1, 2] (by decide)
  exact ⟨by decide, h1, h2, h3, h4, h5⟩

/-- The silent 32-bit wrap of `get<int>()` at work on the canonical path:
version 4294967297 wraps to 1 and the chain is accepted, while
sampleRate 2147483648 wraps to INT_MIN and is rejected as non-positive. -/
theorem get_int_wrap_examples :
    toInt32 4294967297 = 1 ∧ toInt32 2147483648 = -2147483648 ∧
    parseAndValidate (Json.obj [("version", Json.int 4294967297),
        ("chain", Json.arr (sampleChainSpec.chain.map nodeSpecToJson))]) =
      .ok sampleChainSpec ∧
    parseAndValidate (Json.obj [("version", Json.int 1),
        ("sampleRate", Json.int 2147483648),
        ("chain", Json.arr (sampleChainSpec.chain.map nodeSpecToJson))]) =
      .error "'sampleRate' must be > 0" :=
  ⟨by decide, by decide, rfl, rfl⟩
